import Mathlib

/-!
# Device key generation and push (`go/engine/device_keygen.go`)

A shallow embedding of the `DeviceKeygen` engine: the two key generators it owns,
its sticky `runErr` / `pushErr` fields, and the `Run` and `Push` entry points with
their helpers.  Every call that leaves the engine (key generation, local save,
key-statement push, recovery-ciphertext encryption, the key-security post, the
secret resync) is appended to a call history together with the error it returned;
the answers themselves are supplied by a `World`, which may depend on the history.
A nil pointer or nil interface that the Go code dereferences is a `panic` outcome.
-/

namespace Engine

/-! ## Data of the collaborating package -/

/-- Modelled from the spec: `libkb.KID`, a public key identifier (a byte slice; the nil slice
is the empty list). -/
abbrev KID := List Nat

/-- Modelled from the spec: the identifier of the account owner. -/
abbrev UID := Nat

/-- Go `error` values that occur here: `libkb.BadKeyError`, the values of `fmt.Errorf`, and the
errors the collaborators return.  A nil error is `none : Option Error`. -/
inductive Error where
  | BadKeyError (Msg : String)
  | errorString (s : String)
  | remote (code : Nat)
  deriving DecidableEq, Repr

/-- Modelled from the spec: `libkb.NaclSigningKeyPublic`, the public part of a signing key
pair. -/
structure NaclSigningKeyPublic where
  bytes : List Nat
  deriving DecidableEq, Repr

/-- The zero value `libkb.NaclSigningKeyPublic{}`. -/
def NaclSigningKeyPublic.zero : NaclSigningKeyPublic := ⟨[]⟩

/-- Modelled from the spec: `libkb.NaclSigningKeyPair`, with the KID its `GetKid` reports. -/
structure NaclSigningKeyPair where
  Public : NaclSigningKeyPublic
  Private : List Nat
  kid : KID
  deriving DecidableEq, Repr

/-- Modelled from the spec: `libkb.NaclDHKeyPair`, the encryption key pair, with the KID its
`GetKid` reports. -/
structure NaclDHKeyPair where
  Public : List Nat
  Private : List Nat
  kid : KID
  deriving DecidableEq, Repr

/-- Modelled from the spec: a non-nil value of the interface `libkb.NaclKeyPair`, one of the
two key pair variants; the nil interface is `none`. -/
inductive NaclKeyPair where
  | NaclSigningKeyPair (p : NaclSigningKeyPair)
  | NaclDHKeyPair (p : NaclDHKeyPair)
  deriving DecidableEq, Repr

def NaclKeyPair.GetKid : NaclKeyPair → KID
  | .NaclSigningKeyPair p => p.kid
  | .NaclDHKeyPair p => p.kid

/-- Modelled from the spec: a non-nil value of the interface `libkb.GenericKey`, a NaCl key
pair or some other key. -/
inductive GenericKey where
  | nacl (p : NaclKeyPair)
  | other (kid : KID)
  deriving DecidableEq, Repr

def GenericKey.GetKid : GenericKey → KID
  | .nacl p => p.GetKid
  | .other k => k

/-- Conversion of a `NaclKeyPair` interface value to `GenericKey` (nil stays nil). -/
def asGenericKey (p : Option NaclKeyPair) : Option GenericKey := p.map GenericKey.nacl

/-- What `%T` prints for a `NaclKeyPair` interface value. -/
def typeName : Option NaclKeyPair → String
  | none => "<nil>"
  | some (.NaclSigningKeyPair _) => "libkb.NaclSigningKeyPair"
  | some (.NaclDHKeyPair _) => "libkb.NaclDHKeyPair"

/-- Modelled from the spec: `libkb.User`, an account snapshot: the owner and how far the
sigchain has advanced. -/
structure User where
  uid : UID
  seqno : Nat
  deriving DecidableEq, Repr

def User.GetUID (u : User) : UID := u.uid

/-- Modelled from the spec: `libkb.DeviceID`, kept as the text its `String()` method
renders. -/
structure DeviceID where
  String : String
  deriving DecidableEq, Repr

/-- Modelled from the spec: the fixed enumeration of device types. -/
inductive DeviceType where
  | DeviceTypeDesktop
  | DeviceTypeMobile
  | DeviceTypeBackup
  deriving DecidableEq, Repr

/-- Modelled from the spec: the status of a `libkb.Device`. -/
inductive DeviceStatus where
  | DeviceStatusActive
  | DeviceStatusDefunct
  deriving DecidableEq, Repr

/-- Modelled from the spec: `libkb.Device`, with the four fields `device()` fills. -/
structure Device where
  ID : String
  Description : String
  Type_ : DeviceType
  Status : DeviceStatus
  deriving DecidableEq, Repr

/-- Modelled from the spec: the key-security context `libkb.LKSec`, an unchanging snapshot
for the flow: the cached server half, the generation number and the client half under which
recovery ciphertexts are made. -/
structure LKSec where
  serverHalf : List Nat
  generation : Nat
  clientHalf : List Nat
  deriving DecidableEq, Repr

def LKSec.GetServerHalf (l : LKSec) : List Nat := l.serverHalf

def LKSec.Generation (l : LKSec) : Nat := l.generation

/-- Modelled from the spec: a login session handle; `ctx.LoginContext` is nil when the caller
has none. -/
abbrev LoginContext := Nat

abbrev LogUI := Nat

structure Context where
  LoginContext : Option LoginContext
  LogUI : LogUI
  deriving DecidableEq, Repr

/-- The two generator closures built in `setup`. -/
inductive NaclGenerator where
  | GenerateNaclSigningKeyPair
  | GenerateNaclDHKeyPair
  deriving DecidableEq, Repr

/-- The two expiry constants handed to `newNaclArg`. -/
inductive Expire where
  | NaclEdDSAExpireIn
  | NaclDHExpireIn
  deriving DecidableEq, Repr

/-- Modelled from the spec: `libkb.NaclKeyGenArg`, whose declaration is not among the sources.
The first five fields are the ones `newNaclArg` fills; `Signer`, `EldestKeyID` and `Sibkey` are
the ones `UpdateArg` receives (the authorizer, the eldest key identifier and the signing-key
flag of `PublishKeyStatement`), and they hold their zero values until `UpdateArg` is called. -/
structure NaclKeyGenArg where
  Generator : NaclGenerator
  Device : Device
  Me : User
  ExpireIn : Expire
  LogUI : LogUI
  Signer : Option GenericKey
  EldestKeyID : KID
  Sibkey : Bool
  deriving DecidableEq, Repr

/-- Modelled from the spec: `libkb.NaclKeyGen`, whose declaration is not among the sources:
the argument block and the key pair slot, which is nil until `Generate` succeeds. -/
structure NaclKeyGen where
  arg : NaclKeyGenArg
  pair : Option NaclKeyPair
  deriving DecidableEq, Repr

/-- The two generators a `DeviceKeygen` owns. -/
inductive Slot where
  | naclSignGen
  | naclEncGen
  deriving DecidableEq, Repr

/-- A call that leaves the engine, with the receiver and the arguments it carries.
`RunSecretSyncer` with a nil login context is the call through `G().LoginState()`. -/
inductive Call where
  | Generate (gen : Slot) (generator : NaclGenerator)
  | SaveLKS (gen : Slot) (pair : Option NaclKeyPair) (lks : Option LKSec)
      (lctx : Option LoginContext)
  | Push (gen : Slot) (pair : Option NaclKeyPair) (arg : NaclKeyGenArg)
      (lctx : Option LoginContext)
  | EncryptClientHalfRecovery (lks : LKSec) (key : NaclKeyPair)
  | PostDeviceLKS (lctx : Option LoginContext) (deviceID : String) (deviceType : DeviceType)
      (serverHalf : List Nat) (generation : Nat) (chr : String) (chrk : KID)
  | RunSecretSyncer (lctx : Option LoginContext) (uid : UID)
  deriving DecidableEq, Repr

/-- One entry of the call history: the call and the error it returned (`none` for nil). -/
structure Event where
  call : Call
  err : Option Error
  deriving DecidableEq, Repr

/-- Modelled from the spec: the consumed capabilities (key generation, persistence, statement
publication, recovery encryption, record post, resync), none of them among the sources.
Each answer may depend on the calls made so far. -/
structure World where
  GenerateNaclSigningKeyPair : List Event → Except Error NaclSigningKeyPair
  GenerateNaclDHKeyPair : List Event → Except Error NaclDHKeyPair
  /-- Error returned by `SaveLKS`, `Push`, `PostDeviceLKS` and `RunSecretSyncer`. -/
  respond : List Event → Call → Option Error
  EncryptClientHalfRecovery : List Event → LKSec → NaclKeyPair → String × Option Error

/-! ## The engine -/

structure DeviceKeygenArgs where
  Me : User
  DeviceID : DeviceID
  DeviceName : String
  Lks : Option LKSec
  deriving DecidableEq, Repr

structure DeviceKeygenPushArgs where
  IsEldest : Bool
  SkipSignerPush : Bool
  Signer : Option GenericKey
  EldestKID : KID
  User : Option User
  deriving DecidableEq, Repr

structure DeviceKeygen where
  args : DeviceKeygenArgs
  runErr : Option Error
  pushErr : Option Error
  naclSignGen : Option NaclKeyGen
  naclEncGen : Option NaclKeyGen
  deriving DecidableEq, Repr

/-- A `DeviceKeygen` together with the history of the calls made for it so far. -/
structure Machine where
  e : DeviceKeygen
  calls : List Event
  deriving DecidableEq, Repr

/-- How a method ends: it returns a value, or it dereferences nil and panics. -/
inductive Outcome (α : Type) where
  | done (ret : α) (m : Machine)
  | panic (m : Machine)
  deriving DecidableEq, Repr

def Outcome.machine {α : Type} : Outcome α → Machine
  | .done _ m => m
  | .panic m => m

/-- Sequencing of statements: what follows a panic does not run. -/
def Outcome.andThen {α β : Type} (o : Outcome α) (f : α → Machine → Outcome β) : Outcome β :=
  match o with
  | .done a m => f a m
  | .panic m => .panic m

/-- The calls a step added to the history `before`. -/
def newCalls (before : Machine) (after : Machine) : List Event :=
  after.calls.drop before.calls.length

def NewDeviceKeygen (args : DeviceKeygenArgs) : DeviceKeygen :=
  { args := args, runErr := none, pushErr := none, naclSignGen := none, naclEncGen := none }

def device (e : DeviceKeygen) : Device :=
  { ID := e.args.DeviceID.String
    Description := e.args.DeviceName
    Type_ := DeviceType.DeviceTypeDesktop
    Status := DeviceStatus.DeviceStatusActive }

def newNaclArg (e : DeviceKeygen) (ctx : Context) (gen : NaclGenerator) (expire : Expire) :
    NaclKeyGenArg :=
  { Generator := gen
    Device := device e
    Me := e.args.Me
    ExpireIn := expire
    LogUI := ctx.LogUI
    Signer := none
    EldestKeyID := []
    Sibkey := false }

/-! ### Methods of `libkb.NaclKeyGen` -/

/-- Modelled from the spec: `libkb.NewNaclKeyGen`, not among the sources: a generator that
holds the argument block and no key pair yet. -/
def NewNaclKeyGen (arg : NaclKeyGenArg) : NaclKeyGen := { arg := arg, pair := none }

/-- Modelled from the spec: `NaclKeyGen.GetKeyPair`, not among the sources: the key pair slot. -/
def NaclKeyGen.GetKeyPair (g : NaclKeyGen) : Option NaclKeyPair := g.pair

/-- Modelled from the spec: `NaclKeyGen.UpdateArg`, not among the sources: records the
authorizer, the eldest key identifier and the signing-key flag of the statement to publish,
and the account snapshot when the caller supplied one. -/
def NaclKeyGen.UpdateArg (g : NaclKeyGen) (signer : Option GenericKey) (eldestKID : KID)
    (sibkey : Bool) (user : Option User) : NaclKeyGen :=
  { g with arg := { g.arg with
      Signer := signer
      EldestKeyID := eldestKID
      Sibkey := sibkey
      Me := match user with
        | some u => u
        | none => g.arg.Me } }

/-- The generator closures of `setup`: the pair on success, nil and the error on failure. -/
def runGenerator (w : World) (h : List Event) : NaclGenerator → Option NaclKeyPair × Option Error
  | .GenerateNaclSigningKeyPair =>
    match w.GenerateNaclSigningKeyPair h with
    | .error err => (none, some err)
    | .ok kp => (some (NaclKeyPair.NaclSigningKeyPair kp), none)
  | .GenerateNaclDHKeyPair =>
    match w.GenerateNaclDHKeyPair h with
    | .error err => (none, some err)
    | .ok kp => (some (NaclKeyPair.NaclDHKeyPair kp), none)

/-- Modelled from the spec: `NaclKeyGen.Generate`, not among the sources: runs the generator
and keeps the pair it returns. -/
def NaclKeyGen.Generate (g : NaclKeyGen) (w : World) (h : List Event) :
    NaclKeyGen × Option Error :=
  let r := runGenerator w h g.arg.Generator
  ({ g with pair := r.1 }, r.2)

/-- Modelled from the spec: `NaclKeyGen.SaveLKS`, not among the sources: `PersistKey` of the
held pair under the given key-security context. -/
def NaclKeyGen.SaveLKS (g : NaclKeyGen) (slot : Slot) (lks : Option LKSec)
    (lctx : Option LoginContext) : Call :=
  Call.SaveLKS slot g.pair lks lctx

/-- Modelled from the spec: `NaclKeyGen.Push`, not among the sources: `PublishKeyStatement`
of the held pair with the authorizer, eldest key identifier, signing-key flag and account
snapshot currently in the argument block. -/
def NaclKeyGen.Push (g : NaclKeyGen) (slot : Slot) (lctx : Option LoginContext) : Call :=
  Call.Push slot g.pair g.arg lctx

/-- Performs a call whose only result is an error, and records it. -/
def perform (w : World) (m : Machine) (c : Call) : Option Error × Machine :=
  let err := w.respond m.calls c
  (err, { m with calls := m.calls ++ [{ call := c, err := err }] })

/-! ### `Run` and its steps -/

def setup (ctx : Context) (m : Machine) : Outcome Unit :=
  match m.e.runErr with
  | some _ => .done () m
  | none =>
    let signArg := newNaclArg m.e ctx NaclGenerator.GenerateNaclSigningKeyPair
      Expire.NaclEdDSAExpireIn
    let encArg := newNaclArg m.e ctx NaclGenerator.GenerateNaclDHKeyPair Expire.NaclDHExpireIn
    .done () { m with e := { m.e with
      naclSignGen := some (NewNaclKeyGen signArg)
      naclEncGen := some (NewNaclKeyGen encArg) } }

def generate (w : World) (m : Machine) : Outcome Unit :=
  match m.e.runErr with
  | some _ => .done () m
  | none =>
    match m.e.naclSignGen with
    | none => .panic m
    | some sg =>
      let r := sg.Generate w m.calls
      let m1 : Machine :=
        { e := { m.e with naclSignGen := some r.1, runErr := r.2 }
          calls := m.calls ++ [{ call := Call.Generate Slot.naclSignGen sg.arg.Generator,
                                 err := r.2 }] }
      match r.2 with
      | some _ => .done () m1
      | none =>
        match m1.e.naclEncGen with
        | none => .panic m1
        | some eg =>
          let r2 := eg.Generate w m1.calls
          .done () { e := { m1.e with naclEncGen := some r2.1, runErr := r2.2 }
                     calls := m1.calls ++
                       [{ call := Call.Generate Slot.naclEncGen eg.arg.Generator, err := r2.2 }] }

def localSave (w : World) (ctx : Context) (m : Machine) : Outcome Unit :=
  match m.e.runErr with
  | some _ => .done () m
  | none =>
    match m.e.naclSignGen with
    | none => .panic m
    | some sg =>
      let r := perform w m (sg.SaveLKS Slot.naclSignGen m.e.args.Lks ctx.LoginContext)
      let m1 : Machine := { r.2 with e := { r.2.e with runErr := r.1 } }
      match r.1 with
      | some _ => .done () m1
      | none =>
        match m1.e.naclEncGen with
        | none => .panic m1
        | some eg =>
          let r2 := perform w m1 (eg.SaveLKS Slot.naclEncGen m1.e.args.Lks ctx.LoginContext)
          .done () { r2.2 with e := { r2.2.e with runErr := r2.1 } }

/-- Run starts the engine; the value returned is `e.runErr`. -/
def Run (w : World) (ctx : Context) (m : Machine) : Outcome (Option Error) :=
  (setup ctx m).andThen fun _ m1 =>
  (generate w m1).andThen fun _ m2 =>
  (localSave w ctx m2).andThen fun _ m3 =>
  .done m3.e.runErr m3

def SigningKeyPublic (m : Machine) : Outcome (NaclSigningKeyPublic × Option Error) :=
  match m.e.naclSignGen with
  | none => .panic m
  | some g =>
    match g.GetKeyPair with
    | some (NaclKeyPair.NaclSigningKeyPair s) => .done (s.Public, none) m
    | some (NaclKeyPair.NaclDHKeyPair p) =>
      .done (NaclSigningKeyPublic.zero,
        some (Error.BadKeyError ("invalid key type " ++ typeName (some (.NaclDHKeyPair p))))) m
    | none =>
      .done (NaclSigningKeyPublic.zero,
        some (Error.BadKeyError ("invalid key type " ++ typeName none))) m

def SigningKey (m : Machine) : Outcome (Option NaclKeyPair) :=
  match m.e.naclSignGen with
  | none => .panic m
  | some g => .done g.GetKeyPair m

/-! ### `Push` and its steps -/

def pushEldest (w : World) (ctx : Context) (_pargs : DeviceKeygenPushArgs) (m : Machine) :
    Outcome Unit :=
  match m.e.pushErr with
  | some _ => .done () m
  | none =>
    match m.e.naclSignGen with
    | none => .panic m
    | some g =>
      let r := perform w m (g.Push Slot.naclSignGen ctx.LoginContext)
      .done () { r.2 with e := { r.2.e with pushErr := r.1 } }

def pushSibkey (w : World) (ctx : Context) (pargs : DeviceKeygenPushArgs) (m : Machine) :
    Outcome Unit :=
  match m.e.pushErr with
  | some _ => .done () m
  | none =>
    match m.e.naclSignGen with
    | none => .panic m
    | some g =>
      let g1 := g.UpdateArg pargs.Signer pargs.EldestKID true pargs.User
      let m1 : Machine := { m with e := { m.e with naclSignGen := some g1 } }
      let r := perform w m1 (g1.Push Slot.naclSignGen ctx.LoginContext)
      .done () { r.2 with e := { r.2.e with pushErr := r.1 } }

def pushEncKey (w : World) (ctx : Context) (signer : Option GenericKey) (eldestKID : KID)
    (user : Option User) (m : Machine) : Outcome Unit :=
  match m.e.pushErr with
  | some _ => .done () m
  | none =>
    match m.e.naclEncGen with
    | none => .panic m
    | some g =>
      let g1 := g.UpdateArg signer eldestKID false user
      let m1 : Machine := { m with e := { m.e with naclEncGen := some g1 } }
      let r := perform w m1 (g1.Push Slot.naclEncGen ctx.LoginContext)
      .done () { r.2 with e := { r.2.e with pushErr := r.1 } }

def generateClientHalfRecovery (w : World) (m : Machine) :
    Outcome (String × KID × Option Error) :=
  match m.e.naclEncGen with
  | none => .panic m
  | some g =>
    match g.GetKeyPair with
    | none => .panic m
    | some key =>
      let kid := key.GetKid
      match m.e.args.Lks with
      | none => .panic m
      | some lks =>
        let r := w.EncryptClientHalfRecovery m.calls lks key
        .done (r.1, kid, r.2)
          { m with calls := m.calls ++
              [{ call := Call.EncryptClientHalfRecovery lks key, err := r.2 }] }

def errNoLKS : Error := Error.errorString "no local key security set"

def errEmptyServerHalf : Error := Error.errorString "LKS server half is empty, and should not be"

def pushLKS (w : World) (ctx : Context) (m : Machine) : Outcome Unit :=
  match m.e.pushErr with
  | some _ => .done () m
  | none =>
    match m.e.args.Lks with
    | none => .done () { m with e := { m.e with pushErr := some errNoLKS } }
    | some lks =>
      let serverHalf := lks.GetServerHalf
      if serverHalf.length = 0 then
        .done () { m with e := { m.e with pushErr := some errEmptyServerHalf } }
      else
        (generateClientHalfRecovery w m).andThen fun (chr, chrk, err) m1 =>
          let m2 : Machine := { m1 with e := { m1.e with pushErr := err } }
          match err with
          | some _ => .done () m2
          | none =>
            let r := perform w m2 (Call.PostDeviceLKS ctx.LoginContext m2.e.args.DeviceID.String
              DeviceType.DeviceTypeDesktop serverHalf lks.Generation chr chrk)
            let m3 : Machine := { r.2 with e := { r.2.e with pushErr := r.1 } }
            match r.1 with
            | some _ => .done () m3
            | none =>
              let r2 := perform w m3
                (Call.RunSecretSyncer ctx.LoginContext m3.e.args.Me.GetUID)
              .done () { r2.2 with e := { r2.2.e with pushErr := r2.1 } }

/-- Push pushes the generated keys and the key-security server half; the value returned is
`e.pushErr`. -/
def Push (w : World) (ctx : Context) (pargs : DeviceKeygenPushArgs) (m : Machine) :
    Outcome (Option Error) :=
  let signed : Outcome (Option GenericKey × KID) :=
    if pargs.IsEldest then
      (pushEldest w ctx pargs m).andThen fun _ m1 =>
        match m1.e.naclSignGen with
        | none => .panic m1
        | some g =>
          match asGenericKey g.GetKeyPair with
          | none => .panic m1
          | some encSigner => .done (some encSigner, encSigner.GetKid) m1
    else if !pargs.SkipSignerPush then
      (pushSibkey w ctx pargs m).andThen fun _ m1 =>
        match m1.e.naclSignGen with
        | none => .panic m1
        | some g => .done (asGenericKey g.GetKeyPair, pargs.EldestKID) m1
    else
      .done (pargs.Signer, pargs.EldestKID) m
  signed.andThen fun (encSigner, eldestKID) m1 =>
  (pushEncKey w ctx encSigner eldestKID pargs.User m1).andThen fun _ m2 =>
  (pushLKS w ctx m2).andThen fun _ m3 =>
  .done m3.e.pushErr m3

/-! ## Vocabulary of the statements -/

/-- The four steps of `Run`, in the order the code takes them. -/
inductive RunStep where
  | generateSigning
  | generateEncryption
  | persistSigning
  | persistEncryption
  deriving DecidableEq, Repr

def runPipeline : List RunStep :=
  [RunStep.generateSigning, RunStep.generateEncryption, RunStep.persistSigning,
   RunStep.persistEncryption]

/-- The step of `Run` a call belongs to, if any. -/
def Call.runStep : Call → Option RunStep
  | .Generate .naclSignGen _ => some RunStep.generateSigning
  | .Generate .naclEncGen _ => some RunStep.generateEncryption
  | .SaveLKS .naclSignGen _ _ _ => some RunStep.persistSigning
  | .SaveLKS .naclEncGen _ _ _ => some RunStep.persistEncryption
  | _ => none

/-- The five steps of `Push`, in the order the code takes them. -/
inductive PushStep where
  | publishSigning
  | publishEncryption
  | recoveryCiphertext
  | postRecord
  | resync
  deriving DecidableEq, Repr

/-- The step of `Push` a call belongs to, if any. -/
def Call.pushStep : Call → Option PushStep
  | .Push .naclSignGen _ _ _ => some PushStep.publishSigning
  | .Push .naclEncGen _ _ _ => some PushStep.publishEncryption
  | .EncryptClientHalfRecovery _ _ => some PushStep.recoveryCiphertext
  | .PostDeviceLKS _ _ _ _ _ _ _ => some PushStep.postRecord
  | .RunSecretSyncer _ _ => some PushStep.resync
  | _ => none

/-- A call that goes over the network during `Push`: a key-statement publish, the
key-security record post or the resync. -/
def Call.isNetwork : Call → Bool
  | .Push _ _ _ _ => true
  | .PostDeviceLKS _ _ _ _ _ _ _ => true
  | .RunSecretSyncer _ _ => true
  | _ => false

/-- Both generators exist and each holds a generated key pair, as after a successful `Run`. -/
def KeysGenerated (e : DeviceKeygen) : Prop :=
  (e.naclSignGen.bind NaclKeyGen.GetKeyPair).isSome = true ∧
  (e.naclEncGen.bind NaclKeyGen.GetKeyPair).isSome = true

instance (e : DeviceKeygen) : Decidable (KeysGenerated e) := by
  unfold KeysGenerated
  exact inferInstance

def pushPipeline : List PushStep :=
  [PushStep.publishSigning, PushStep.publishEncryption, PushStep.recoveryCiphertext,
   PushStep.postRecord, PushStep.resync]

/-- First error wins, for calls `l` made between a push error `before` and a push error
`after`: a pending error means no call and the same error afterwards; ending without an error
means every call succeeded; only the last call can have failed, and then its error is the
one left behind. -/
def FirstErrorWins (before : Option Error) (l : List Event) (after : Option Error) : Prop :=
  (∀ err, before = some err → l = [] ∧ after = some err) ∧
  (after = none → ∀ ev ∈ l, ev.err = none) ∧
  (∀ ev ∈ l.dropLast, ev.err = none) ∧
  (∀ ev err, l.getLast? = some ev → ev.err = some err → after = some err)

/-- What a step of `Push` leaves alone: the arguments and the key pairs held by the two
generators. -/
def Frame (m m1 : Machine) : Prop :=
  m1.e.args = m.e.args ∧
  m1.e.naclSignGen.bind NaclKeyGen.GetKeyPair = m.e.naclSignGen.bind NaclKeyGen.GetKeyPair ∧
  m1.e.naclEncGen.bind NaclKeyGen.GetKeyPair = m.e.naclEncGen.bind NaclKeyGen.GetKeyPair

/-- The post of the key-security record as `pushLKS` builds it from the engine arguments, the
key-security context, the recovery ciphertext and the recovery key identifier. -/
def postCall (ctx : Context) (e : DeviceKeygen) (lks : LKSec) (chr : String) (chrk : KID) :
    Call :=
  Call.PostDeviceLKS ctx.LoginContext e.args.DeviceID.String DeviceType.DeviceTypeDesktop
    lks.serverHalf lks.generation chr chrk

/-- The recovery-ciphertext computation for a key under a key-security context, as an entry
of the call history. -/
def encryptEvent (lks : LKSec) (key : NaclKeyPair) (err : Option Error) : Event :=
  { call := Call.EncryptClientHalfRecovery lks key, err := err }

/-- The engine after the signing generator, now `g`, published its statement with result `r`. -/
def afterSignPush (m : Machine) (g : NaclKeyGen) (lctx : Option LoginContext)
    (r : Option Error) : Machine :=
  { e := { m.e with naclSignGen := some g, pushErr := r }
    calls := m.calls ++ [{ call := g.Push Slot.naclSignGen lctx, err := r }] }

/-- The engine after the encryption generator, now `g`, published its statement with result
`r`. -/
def afterEncPush (m : Machine) (g : NaclKeyGen) (lctx : Option LoginContext)
    (r : Option Error) : Machine :=
  { e := { m.e with naclEncGen := some g, pushErr := r }
    calls := m.calls ++ [{ call := g.Push Slot.naclEncGen lctx, err := r }] }

/-- A part of `Push` took the engine from `m` to `m1` making the calls `l`, all of them among
`steps` and in that order, first error winning, the arguments and key pairs untouched. -/
structure PushPart (m m1 : Machine) (l : List Event) (steps : List PushStep) : Prop where
  calls : m1.calls = m.calls ++ l
  frame : Frame m m1
  few : FirstErrorWins m.e.pushErr l m1.e.pushErr
  kinds : List.Sublist (l.map (fun ev => ev.call.pushStep)) (steps.map some)

/-- Publishing steps fail only through a call: when they start with no push error and leave
one, some call among `l` returned it; and with no push error pending they do make a call. -/
def Blamed (m m1 : Machine) (l : List Event) : Prop :=
  m.e.pushErr = none →
    l ≠ [] ∧ ∀ err, m1.e.pushErr = some err → ∃ ev ∈ l, ev.err = some err

/-! ## Sample data -/

def sampleUser : User := { uid := 7, seqno := 1 }

def sampleLks : LKSec := { serverHalf := [1, 2], generation := 3, clientHalf := [4] }

def emptyLks : LKSec := { serverHalf := [], generation := 3, clientHalf := [4] }

def sampleArgs : DeviceKeygenArgs :=
  { Me := sampleUser, DeviceID := { String := "d1" }, DeviceName := "laptop-1",
    Lks := some sampleLks }

def emptyHalfArgs : DeviceKeygenArgs := { sampleArgs with Lks := some emptyLks }

def sampleCtx : Context := { LoginContext := some 1, LogUI := 0 }

def sampleSignPair : NaclSigningKeyPair := { Public := { bytes := [10] }, Private := [11], kid := [12] }

def sampleEncPair : NaclDHKeyPair := { Public := [20], Private := [21], kid := [22] }

/-- A world in which every call succeeds. -/
def okWorld : World :=
  { GenerateNaclSigningKeyPair := fun _ => Except.ok sampleSignPair
    GenerateNaclDHKeyPair := fun _ => Except.ok sampleEncPair
    respond := fun _ _ => none
    EncryptClientHalfRecovery := fun _ _ _ => ("ctext", none) }

/-- A world that rejects the encryption-key statement and accepts everything else. -/
def rejectEncWorld : World :=
  { okWorld with
    respond := fun _ c =>
      match c with
      | Call.Push Slot.naclEncGen _ _ _ => some (Error.remote 1)
      | _ => none }

/-- A world in which the signing key cannot be generated and every publish is rejected. -/
def failSignGenWorld : World :=
  { okWorld with
    GenerateNaclSigningKeyPair := fun _ => Except.error (Error.remote 3)
    respond := fun _ c =>
      match c with
      | Call.Push _ _ _ _ => some (Error.remote 2)
      | _ => none }

/-- A newly constructed engine with an empty call history. -/
def freshMachine (args : DeviceKeygenArgs) : Machine :=
  { e := NewDeviceKeygen args, calls := [] }

/-- The sample engine after a successful `Run`. -/
def ranMachine : Machine := (Run okWorld sampleCtx (freshMachine sampleArgs)).machine

/-- The sample engine, with an empty server half, after a successful `Run`. -/
def ranEmptyHalf : Machine := (Run okWorld sampleCtx (freshMachine emptyHalfArgs)).machine

/-- The sample engine after a `Run` that failed at the signing-key generation. -/
def failedRunMachine : Machine :=
  (Run failSignGenWorld sampleCtx (freshMachine sampleArgs)).machine

def eldestArgs : DeviceKeygenPushArgs :=
  { IsEldest := true, SkipSignerPush := false, Signer := none, EldestKID := [], User := none }

def siblingArgs : DeviceKeygenPushArgs :=
  { IsEldest := false, SkipSignerPush := false, Signer := some (GenericKey.other [99]),
    EldestKID := [98], User := none }

def skipArgs : DeviceKeygenPushArgs :=
  { IsEldest := false, SkipSignerPush := true, Signer := some (GenericKey.other [99]),
    EldestKID := [98], User := none }

/-- The engine left by a sibling push, rejected, on the engine whose `Run` failed. -/
def stuckMachine : Machine :=
  (Push failSignGenWorld sampleCtx siblingArgs failedRunMachine).machine

/-! ## Auxiliary facts -/

theorem FirstErrorWins.nil (a : Option Error) : FirstErrorWins a [] a := by
  refine ⟨fun err h => ⟨rfl, h⟩, ?_, ?_, ?_⟩ <;> simp

theorem FirstErrorWins.single (c : Call) (r : Option Error) :
    FirstErrorWins none [{ call := c, err := r }] r := by
  refine ⟨?_, ?_, ?_, ?_⟩
  · simp
  · intro h ev hev
    simp at hev
    subst hev
    exact h
  · simp
  · intro ev err h1 h2
    simp at h1
    subst h1
    exact h2

theorem FirstErrorWins.append {a b c : Option Error} {l1 l2 : List Event}
    (h1 : FirstErrorWins a l1 b) (h2 : FirstErrorWins b l2 c) :
    FirstErrorWins a (l1 ++ l2) c := by
  obtain ⟨p1, q1, r1, s1⟩ := h1
  obtain ⟨p2, q2, r2, s2⟩ := h2
  cases hb : b with
  | some eb =>
    obtain ⟨hl2, hc⟩ := p2 eb hb
    subst hl2
    subst hb
    refine ⟨?_, ?_, ?_, ?_⟩
    · intro err ha
      obtain ⟨hl1, hb1⟩ := p1 err ha
      exact ⟨by simp [hl1], by rw [hc, ← hb1]⟩
    · intro hcn
      rw [hc] at hcn
      exact absurd hcn (by simp)
    · simpa using r1
    · intro ev err hlast herr
      simp at hlast
      rw [hc]
      exact s1 ev err hlast herr
  | none =>
    subst hb
    have hall : ∀ ev ∈ l1, ev.err = none := q1 rfl
    refine ⟨?_, ?_, ?_, ?_⟩
    · intro err ha
      obtain ⟨_, hb1⟩ := p1 err ha
      exact absurd hb1 (by simp)
    · intro hcn ev hev
      rcases List.mem_append.mp hev with h | h
      · exact hall ev h
      · exact q2 hcn ev h
    · intro ev hev
      rcases List.eq_nil_or_concat l2 with hnil | ⟨l2a, x, hx⟩
      · subst hnil
        simp at hev
        exact r1 ev hev
      · subst hx
        simp only [List.concat_eq_append, ← List.append_assoc, List.dropLast_concat] at hev r2
        rcases List.mem_append.mp hev with h | h
        · exact hall ev h
        · exact r2 ev h
    · intro ev err hlast herr
      rcases List.eq_nil_or_concat l2 with hnil | ⟨l2a, x, hx⟩
      · subst hnil
        simp at hlast
        exact absurd (hall ev (List.mem_of_getLast?_eq_some hlast)) (by simp [herr])
      · subst hx
        simp only [List.concat_eq_append, ← List.append_assoc, List.getLast?_concat] at hlast
        apply s2 ev err _ herr
        simpa using hlast

theorem KeysGenerated.unpack {e : DeviceKeygen} (h : KeysGenerated e) :
    ∃ sg sp eg ep, e.naclSignGen = some sg ∧ sg.pair = some sp ∧
      e.naclEncGen = some eg ∧ eg.pair = some ep := by
  obtain ⟨h1, h2⟩ := h
  cases hs : e.naclSignGen with
  | none => simp [hs] at h1
  | some sg =>
    cases he : e.naclEncGen with
    | none => simp [he] at h2
    | some eg =>
      cases hsp : sg.pair with
      | none => simp [hs, NaclKeyGen.GetKeyPair, hsp] at h1
      | some sp =>
        cases hep : eg.pair with
        | none => simp [he, NaclKeyGen.GetKeyPair, hep] at h2
        | some ep => exact ⟨sg, sp, eg, ep, rfl, hsp, rfl, hep⟩

/-! ### What each step of `Push` computes -/

theorem pushEldest_pending (w : World) (ctx : Context) (pargs : DeviceKeygenPushArgs)
    (m : Machine) (err : Error) (h : m.e.pushErr = some err) :
    pushEldest w ctx pargs m = Outcome.done () m := by
  simp [pushEldest, h]

theorem pushSibkey_pending (w : World) (ctx : Context) (pargs : DeviceKeygenPushArgs)
    (m : Machine) (err : Error) (h : m.e.pushErr = some err) :
    pushSibkey w ctx pargs m = Outcome.done () m := by
  simp [pushSibkey, h]

theorem pushEncKey_pending (w : World) (ctx : Context) (signer : Option GenericKey)
    (eldestKID : KID) (user : Option User) (m : Machine) (err : Error)
    (h : m.e.pushErr = some err) :
    pushEncKey w ctx signer eldestKID user m = Outcome.done () m := by
  simp [pushEncKey, h]

theorem pushLKS_pending (w : World) (ctx : Context) (m : Machine) (err : Error)
    (h : m.e.pushErr = some err) :
    pushLKS w ctx m = Outcome.done () m := by
  simp [pushLKS, h]

theorem pushEldest_eq (w : World) (ctx : Context) (pargs : DeviceKeygenPushArgs)
    (m : Machine) (g : NaclKeyGen) (hp : m.e.pushErr = none) (hg : m.e.naclSignGen = some g) :
    pushEldest w ctx pargs m = Outcome.done ()
      (afterSignPush m g ctx.LoginContext
        (w.respond m.calls (g.Push Slot.naclSignGen ctx.LoginContext))) := by
  simp [pushEldest, hp, hg, perform, afterSignPush]

theorem pushSibkey_eq (w : World) (ctx : Context) (pargs : DeviceKeygenPushArgs)
    (m : Machine) (g : NaclKeyGen) (hp : m.e.pushErr = none) (hg : m.e.naclSignGen = some g) :
    pushSibkey w ctx pargs m = Outcome.done ()
      (afterSignPush m (g.UpdateArg pargs.Signer pargs.EldestKID true pargs.User) ctx.LoginContext
        (w.respond m.calls
          ((g.UpdateArg pargs.Signer pargs.EldestKID true pargs.User).Push Slot.naclSignGen
            ctx.LoginContext))) := by
  simp [pushSibkey, hp, hg, perform, afterSignPush]

theorem pushEncKey_eq (w : World) (ctx : Context) (signer : Option GenericKey)
    (eldestKID : KID) (user : Option User) (m : Machine) (g : NaclKeyGen)
    (hp : m.e.pushErr = none) (hg : m.e.naclEncGen = some g) :
    pushEncKey w ctx signer eldestKID user m = Outcome.done ()
      (afterEncPush m (g.UpdateArg signer eldestKID false user) ctx.LoginContext
        (w.respond m.calls
          ((g.UpdateArg signer eldestKID false user).Push Slot.naclEncGen ctx.LoginContext))) := by
  simp [pushEncKey, hp, hg, perform, afterEncPush]

theorem pushLKS_nil (w : World) (ctx : Context) (m : Machine)
    (hp : m.e.pushErr = none) (hl : m.e.args.Lks = none) :
    pushLKS w ctx m = Outcome.done () { m with e := { m.e with pushErr := some errNoLKS } } := by
  simp [pushLKS, hp, hl]

theorem pushLKS_empty (w : World) (ctx : Context) (m : Machine) (lks : LKSec)
    (hp : m.e.pushErr = none) (hl : m.e.args.Lks = some lks) (hs : lks.serverHalf = []) :
    pushLKS w ctx m =
      Outcome.done () { m with e := { m.e with pushErr := some errEmptyServerHalf } } := by
  simp [pushLKS, hp, hl, LKSec.GetServerHalf, hs]

theorem pushLKS_encrypt_failed (w : World) (ctx : Context) (m : Machine) (lks : LKSec)
    (g : NaclKeyGen) (key : NaclKeyPair) (err : Error)
    (hp : m.e.pushErr = none) (hl : m.e.args.Lks = some lks) (hs : lks.serverHalf ≠ [])
    (hg : m.e.naclEncGen = some g) (hk : g.pair = some key)
    (hE : (w.EncryptClientHalfRecovery m.calls lks key).2 = some err) :
    pushLKS w ctx m = Outcome.done ()
      { e := { m.e with pushErr := some err }
        calls := m.calls ++ [encryptEvent lks key (some err)] } := by
  simp [pushLKS, hp, hl, LKSec.GetServerHalf, hs, generateClientHalfRecovery, hg,
    NaclKeyGen.GetKeyPair, hk, Outcome.andThen, hE, encryptEvent]

theorem pushLKS_post_failed (w : World) (ctx : Context) (m : Machine) (lks : LKSec)
    (g : NaclKeyGen) (key : NaclKeyPair) (chr : String) (err : Error)
    (hp : m.e.pushErr = none) (hl : m.e.args.Lks = some lks) (hs : lks.serverHalf ≠ [])
    (hg : m.e.naclEncGen = some g) (hk : g.pair = some key)
    (hE : w.EncryptClientHalfRecovery m.calls lks key = (chr, none))
    (hP : w.respond (m.calls ++ [encryptEvent lks key none])
      (postCall ctx m.e lks chr key.GetKid) = some err) :
    pushLKS w ctx m = Outcome.done ()
      { e := { m.e with pushErr := some err }
        calls := m.calls ++
          [encryptEvent lks key none,
           { call := postCall ctx m.e lks chr key.GetKid, err := some err }] } := by
  simp only [postCall, encryptEvent] at hP
  simp [pushLKS, hp, hl, LKSec.GetServerHalf, LKSec.Generation, hs, generateClientHalfRecovery,
    hg, NaclKeyGen.GetKeyPair, hk, Outcome.andThen, hE, perform, hP, postCall, encryptEvent]

theorem pushLKS_synced (w : World) (ctx : Context) (m : Machine) (lks : LKSec)
    (g : NaclKeyGen) (key : NaclKeyPair) (chr : String) (r : Option Error)
    (hp : m.e.pushErr = none) (hl : m.e.args.Lks = some lks) (hs : lks.serverHalf ≠ [])
    (hg : m.e.naclEncGen = some g) (hk : g.pair = some key)
    (hE : w.EncryptClientHalfRecovery m.calls lks key = (chr, none))
    (hP : w.respond (m.calls ++ [encryptEvent lks key none])
      (postCall ctx m.e lks chr key.GetKid) = none)
    (hR : w.respond
      (m.calls ++ [encryptEvent lks key none,
                   { call := postCall ctx m.e lks chr key.GetKid, err := none }])
      (Call.RunSecretSyncer ctx.LoginContext m.e.args.Me.GetUID) = r) :
    pushLKS w ctx m = Outcome.done ()
      { e := { m.e with pushErr := r }
        calls := m.calls ++
          [encryptEvent lks key none,
           { call := postCall ctx m.e lks chr key.GetKid, err := none },
           { call := Call.RunSecretSyncer ctx.LoginContext m.e.args.Me.GetUID, err := r }] } := by
  simp only [postCall, encryptEvent] at hP hR
  simp [pushLKS, hp, hl, LKSec.GetServerHalf, LKSec.Generation, hs, generateClientHalfRecovery,
    hg, NaclKeyGen.GetKeyPair, hk, Outcome.andThen, hE, perform, hP, hR, postCall, encryptEvent]

/-! ### Parts of `Push` compose -/

theorem Frame.unchanged (m : Machine) : Frame m m := ⟨rfl, rfl, rfl⟩

theorem Frame.chain {m m1 m2 : Machine} (h1 : Frame m m1) (h2 : Frame m1 m2) : Frame m m2 :=
  ⟨h2.1.trans h1.1, h2.2.1.trans h1.2.1, h2.2.2.trans h1.2.2⟩

theorem Frame.keys {m m1 : Machine} (h : Frame m m1) (hk : KeysGenerated m.e) :
    KeysGenerated m1.e := by
  unfold KeysGenerated at *
  rw [h.2.1, h.2.2]
  exact hk

theorem PushPart.idle (m : Machine) (steps : List PushStep) : PushPart m m [] steps :=
  { calls := by simp
    frame := Frame.unchanged m
    few := FirstErrorWins.nil _
    kinds := by simp }

theorem PushPart.followedBy {m m1 m2 : Machine} {l1 l2 : List Event} {s1 s2 : List PushStep}
    (h1 : PushPart m m1 l1 s1) (h2 : PushPart m1 m2 l2 s2) :
    PushPart m m2 (l1 ++ l2) (s1 ++ s2) :=
  { calls := by rw [h2.calls, h1.calls, List.append_assoc]
    frame := h1.frame.chain h2.frame
    few := h1.few.append h2.few
    kinds := by
      simp only [List.map_append]
      exact List.Sublist.append h1.kinds h2.kinds }

theorem PushPart.newCalls {m m1 : Machine} {l : List Event} {s : List PushStep}
    (h : PushPart m m1 l s) : newCalls m m1 = l := by
  simp [Engine.newCalls, h.calls]

theorem Blamed.oneCall (m : Machine) (e1 : DeviceKeygen) (c : Call) (r : Option Error)
    (h : e1.pushErr = r) :
    Blamed m { e := e1, calls := m.calls ++ [{ call := c, err := r }] }
      [{ call := c, err := r }] := by
  intro _
  refine ⟨by simp, ?_⟩
  intro err herr
  exact ⟨_, List.mem_singleton.mpr rfl, by rw [← h]; exact herr⟩

theorem Blamed.pending (m : Machine) (err : Error) (h : m.e.pushErr = some err)
    (m1 : Machine) (l : List Event) : Blamed m m1 l := by
  intro hn
  rw [h] at hn
  exact absurd hn (by simp)

theorem pushEldest_part (w : World) (ctx : Context) (pargs : DeviceKeygenPushArgs)
    (m : Machine) (hk : KeysGenerated m.e) :
    ∃ m1 l, pushEldest w ctx pargs m = Outcome.done () m1 ∧
      PushPart m m1 l [PushStep.publishSigning] ∧ Blamed m m1 l := by
  obtain ⟨sg, sp, eg, ep, hsg, hsp, heg, hep⟩ := hk.unpack
  cases hp : m.e.pushErr with
  | some err =>
    exact ⟨m, [], pushEldest_pending w ctx pargs m err hp, PushPart.idle m _,
      Blamed.pending m err hp _ _⟩
  | none =>
    refine ⟨_, _, pushEldest_eq w ctx pargs m sg hp hsg, ⟨rfl, ⟨rfl, ?_, rfl⟩, ?_, ?_⟩,
      Blamed.oneCall m _ _ _ rfl⟩
    · simp [hsg, afterSignPush]
    · rw [hp]
      exact FirstErrorWins.single _ _
    · simp [Call.pushStep, NaclKeyGen.Push]

theorem pushSibkey_part (w : World) (ctx : Context) (pargs : DeviceKeygenPushArgs)
    (m : Machine) (hk : KeysGenerated m.e) :
    ∃ m1 l, pushSibkey w ctx pargs m = Outcome.done () m1 ∧
      PushPart m m1 l [PushStep.publishSigning] ∧ Blamed m m1 l := by
  obtain ⟨sg, sp, eg, ep, hsg, hsp, heg, hep⟩ := hk.unpack
  cases hp : m.e.pushErr with
  | some err =>
    exact ⟨m, [], pushSibkey_pending w ctx pargs m err hp, PushPart.idle m _,
      Blamed.pending m err hp _ _⟩
  | none =>
    refine ⟨_, _, pushSibkey_eq w ctx pargs m sg hp hsg, ⟨rfl, ⟨rfl, ?_, rfl⟩, ?_, ?_⟩,
      Blamed.oneCall m _ _ _ rfl⟩
    · simp [hsg, NaclKeyGen.GetKeyPair, NaclKeyGen.UpdateArg, afterSignPush]
    · rw [hp]
      exact FirstErrorWins.single _ _
    · simp [Call.pushStep, NaclKeyGen.Push]

theorem pushEncKey_part (w : World) (ctx : Context) (signer : Option GenericKey)
    (eldestKID : KID) (user : Option User) (m : Machine) (hk : KeysGenerated m.e) :
    ∃ m1 l, pushEncKey w ctx signer eldestKID user m = Outcome.done () m1 ∧
      PushPart m m1 l [PushStep.publishEncryption] ∧ Blamed m m1 l := by
  obtain ⟨sg, sp, eg, ep, hsg, hsp, heg, hep⟩ := hk.unpack
  cases hp : m.e.pushErr with
  | some err =>
    exact ⟨m, [], pushEncKey_pending w ctx signer eldestKID user m err hp, PushPart.idle m _,
      Blamed.pending m err hp _ _⟩
  | none =>
    refine ⟨_, _, pushEncKey_eq w ctx signer eldestKID user m eg hp heg,
      ⟨rfl, ⟨rfl, rfl, ?_⟩, ?_, ?_⟩, Blamed.oneCall m _ _ _ rfl⟩
    · simp [heg, NaclKeyGen.GetKeyPair, NaclKeyGen.UpdateArg, afterEncPush]
    · rw [hp]
      exact FirstErrorWins.single _ _
    · simp [Call.pushStep, NaclKeyGen.Push]

/-- Two publishing steps in a row. -/
theorem Blamed.followedByPublish {m m1 m2 : Machine} {l1 l2 : List Event} {s1 s2 : List PushStep}
    (_p1 : PushPart m m1 l1 s1) (b1 : m.e.pushErr = none → ∀ err, m1.e.pushErr = some err →
      ∃ ev ∈ l1, ev.err = some err)
    (p2 : PushPart m1 m2 l2 s2) (b2 : Blamed m1 m2 l2) : Blamed m m2 (l1 ++ l2) := by
  intro hn
  cases h1 : m1.e.pushErr with
  | some e1 =>
    obtain ⟨hl2, h2⟩ := p2.few.1 e1 h1
    obtain ⟨ev, hev, herr⟩ := b1 hn e1 h1
    refine ⟨?_, ?_⟩
    · intro hnil
      rw [List.append_eq_nil] at hnil
      rw [hnil.1] at hev
      simp at hev
    · intro err herr2
      rw [h2] at herr2
      cases herr2
      exact ⟨ev, List.mem_append_left _ hev, herr⟩
  | none =>
    obtain ⟨hne, hb⟩ := b2 h1
    refine ⟨?_, ?_⟩
    · intro hnil
      rw [List.append_eq_nil] at hnil
      exact hne hnil.2
    · intro err herr2
      obtain ⟨ev, hev, herr⟩ := hb err herr2
      exact ⟨ev, List.mem_append_right _ hev, herr⟩

theorem pushLKS_part (w : World) (ctx : Context) (m : Machine) (hk : KeysGenerated m.e) :
    ∃ m1 l, pushLKS w ctx m = Outcome.done () m1 ∧
      PushPart m m1 l
        [PushStep.recoveryCiphertext, PushStep.postRecord, PushStep.resync] := by
  obtain ⟨sg, sp, eg, ep, hsg, hsp, heg, hep⟩ := hk.unpack
  cases hp : m.e.pushErr with
  | some err => exact ⟨m, [], pushLKS_pending w ctx m err hp, PushPart.idle m _⟩
  | none =>
    cases hl : m.e.args.Lks with
    | none =>
      refine ⟨_, [], pushLKS_nil w ctx m hp hl, ⟨by simp, ⟨rfl, rfl, rfl⟩, ?_, by simp⟩⟩
      rw [hp]
      refine ⟨by simp, by simp, by simp, by simp⟩
    | some lks =>
      by_cases hs : lks.serverHalf = []
      · refine ⟨_, [], pushLKS_empty w ctx m lks hp hl hs, ⟨by simp, ⟨rfl, rfl, rfl⟩, ?_, by simp⟩⟩
        rw [hp]
        refine ⟨by simp, by simp, by simp, by simp⟩
      · rcases hE : w.EncryptClientHalfRecovery m.calls lks ep with ⟨chr, _ | errE⟩
        · cases hP : w.respond (m.calls ++ [encryptEvent lks ep none])
              (postCall ctx m.e lks chr ep.GetKid) with
          | some errP =>
            refine ⟨_, _, pushLKS_post_failed w ctx m lks eg ep chr errP hp hl hs heg hep hE hP,
              ⟨rfl, ⟨rfl, rfl, rfl⟩, ?_, ?_⟩⟩
            · rw [hp]
              refine ⟨by simp, by simp, by simp [encryptEvent], ?_⟩
              intro ev err h1 h2
              simp at h1
              subst h1
              exact h2
            · simp [Call.pushStep, encryptEvent, postCall]
          | none =>
            refine ⟨_, _, pushLKS_synced w ctx m lks eg ep chr _ hp hl hs heg hep hE hP rfl,
              ⟨rfl, ⟨rfl, rfl, rfl⟩, ?_, ?_⟩⟩
            · rw [hp]
              refine ⟨by simp, ?_, by simp [encryptEvent], ?_⟩
              · intro h ev hev
                simp at hev
                rcases hev with rfl | rfl | rfl
                · rfl
                · rfl
                · exact h
              · intro ev err h1 h2
                simp at h1
                subst h1
                exact h2
            · simp [Call.pushStep, encryptEvent, postCall]
        · refine ⟨_, _, pushLKS_encrypt_failed w ctx m lks eg ep errE hp hl hs heg hep
              (by rw [hE]), ⟨rfl, ⟨rfl, rfl, rfl⟩, ?_, ?_⟩⟩
          · rw [hp]
            exact FirstErrorWins.single _ _
          · simp [Call.pushStep, encryptEvent]

/-- The two phases of a push: the key-statement publishes of the role, then `pushLKS`. -/
theorem Push_phases (w : World) (ctx : Context) (pargs : DeviceKeygenPushArgs) (m : Machine)
    (hk : KeysGenerated m.e) :
    ∃ m2 l12 m3 l3,
      PushPart m m2 l12
        (if pargs.IsEldest = true ∨ pargs.SkipSignerPush = false then
          [PushStep.publishSigning, PushStep.publishEncryption]
         else [PushStep.publishEncryption]) ∧
      Blamed m m2 l12 ∧
      pushLKS w ctx m2 = Outcome.done () m3 ∧
      PushPart m2 m3 l3 [PushStep.recoveryCiphertext, PushStep.postRecord, PushStep.resync] ∧
      Push w ctx pargs m = Outcome.done m3.e.pushErr m3 := by
  have tail : ∀ (m1 : Machine) (l1 : List Event) (s1 : List PushStep)
      (signer : Option GenericKey) (kid : KID), PushPart m m1 l1 s1 →
      (m.e.pushErr = none → ∀ err, m1.e.pushErr = some err → ∃ ev ∈ l1, ev.err = some err) →
      ∃ m2 l12 m3 l3, PushPart m m2 l12 (s1 ++ [PushStep.publishEncryption]) ∧
        Blamed m m2 l12 ∧
        pushLKS w ctx m2 = Outcome.done () m3 ∧
        PushPart m2 m3 l3
          [PushStep.recoveryCiphertext, PushStep.postRecord, PushStep.resync] ∧
        ((pushEncKey w ctx signer kid pargs.User m1).andThen fun _ m2 =>
          (pushLKS w ctx m2).andThen fun _ m3 => Outcome.done m3.e.pushErr m3) =
            Outcome.done m3.e.pushErr m3 := by
    intro m1 l1 s1 signer kid h1 b1
    obtain ⟨m2, l2, e2, p2, b2⟩ :=
      pushEncKey_part w ctx signer kid pargs.User m1 (h1.frame.keys hk)
    obtain ⟨m3, l3, e3, p3⟩ := pushLKS_part w ctx m2 (p2.frame.keys (h1.frame.keys hk))
    refine ⟨m2, l1 ++ l2, m3, l3, h1.followedBy p2, Blamed.followedByPublish h1 b1 p2 b2, e3, p3, ?_⟩
    simp [e2, e3, Outcome.andThen]
  cases hE : pargs.IsEldest with
  | true =>
    obtain ⟨m1, l1, e1, p1, b1⟩ := pushEldest_part w ctx pargs m hk
    obtain ⟨sg, sp, eg, ep, hsg, hsp, heg, hep⟩ := (p1.frame.keys hk).unpack
    obtain ⟨m2, l12, m3, l3, p12, b12, e3, p3, e⟩ :=
      tail m1 l1 _ (some (GenericKey.nacl sp)) (GenericKey.nacl sp).GetKid p1
        (fun hn => (b1 hn).2)
    refine ⟨m2, l12, m3, l3, by simpa using p12, b12, e3, p3, ?_⟩
    rw [← e]
    simp [Push, hE, e1, Outcome.andThen, hsg, NaclKeyGen.GetKeyPair, hsp, asGenericKey]
  | false =>
    cases hS : pargs.SkipSignerPush with
    | false =>
      obtain ⟨m1, l1, e1, p1, b1⟩ := pushSibkey_part w ctx pargs m hk
      obtain ⟨sg, sp, eg, ep, hsg, hsp, heg, hep⟩ := (p1.frame.keys hk).unpack
      obtain ⟨m2, l12, m3, l3, p12, b12, e3, p3, e⟩ :=
        tail m1 l1 _ (some (GenericKey.nacl sp)) pargs.EldestKID p1 (fun hn => (b1 hn).2)
      refine ⟨m2, l12, m3, l3, by simpa using p12, b12, e3, p3, ?_⟩
      rw [← e]
      simp [Push, hE, hS, e1, Outcome.andThen, hsg, NaclKeyGen.GetKeyPair, hsp, asGenericKey]
    | true =>
      obtain ⟨m2, l12, m3, l3, p12, b12, e3, p3, e⟩ :=
        tail m [] [] pargs.Signer pargs.EldestKID (PushPart.idle m _)
          (fun hn err herr => by rw [hn] at herr; exact absurd herr (by simp))
      refine ⟨m2, l12, m3, l3, by simpa using p12, b12, e3, p3, ?_⟩
      rw [← e]
      simp [Push, hE, hS, Outcome.andThen]

/-- The steps a push with the given arguments may take: all five, or all but the
signing-key publish when the signer was already pushed. -/
theorem Push_part (w : World) (ctx : Context) (pargs : DeviceKeygenPushArgs) (m : Machine)
    (hk : KeysGenerated m.e) :
    ∃ m1 l, Push w ctx pargs m = Outcome.done m1.e.pushErr m1 ∧
      PushPart m m1 l
        (if pargs.IsEldest = true ∨ pargs.SkipSignerPush = false then pushPipeline
         else pushPipeline.tail) := by
  obtain ⟨m2, l12, m3, l3, p12, _, _, p3, e⟩ := Push_phases w ctx pargs m hk
  refine ⟨m3, l12 ++ l3, e, ?_⟩
  have h := p12.followedBy p3
  split at h <;> rename_i hc
  · simpa [hc, pushPipeline] using h
  · simpa [hc, pushPipeline] using h

theorem Outcome.andThen_done {α β : Type} {o : Outcome α} {f : α → Machine → Outcome β}
    {b : β} {m : Machine} (h : o.andThen f = Outcome.done b m) :
    ∃ a m0, o = Outcome.done a m0 ∧ f a m0 = Outcome.done b m := by
  cases o with
  | done a m0 => exact ⟨a, m0, rfl, h⟩
  | panic m0 => simp [Outcome.andThen] at h

/-- The value `Push` returns is the push error it leaves in the engine. -/
theorem Push_ret (w : World) (ctx : Context) (pargs : DeviceKeygenPushArgs) (m m1 : Machine)
    (ret : Option Error) (h : Push w ctx pargs m = Outcome.done ret m1) :
    ret = m1.e.pushErr := by
  unfold Push at h
  obtain ⟨a, m0, _, h⟩ := Outcome.andThen_done h
  obtain ⟨_, m2, _, h⟩ := Outcome.andThen_done h
  obtain ⟨_, m3, _, h⟩ := Outcome.andThen_done h
  simp at h
  rw [← h.2]
  exact h.1.symm

/-- A push on an engine with a pending push error changes nothing, whether it returns or
panics. -/
theorem Push_pending_machine (w : World) (ctx : Context) (pargs : DeviceKeygenPushArgs)
    (m : Machine) (err : Error) (hp : m.e.pushErr = some err) :
    (Push w ctx pargs m).machine = m := by
  unfold Push
  cases hE : pargs.IsEldest with
  | true =>
    simp only [if_true, pushEldest_pending w ctx pargs m err hp, Outcome.andThen]
    cases hg : m.e.naclSignGen with
    | none => rfl
    | some g =>
      cases hk : g.pair with
      | none => simp [NaclKeyGen.GetKeyPair, asGenericKey, hk, Outcome.machine]
      | some k =>
        simp [NaclKeyGen.GetKeyPair, asGenericKey, hk, Outcome.machine, Outcome.andThen,
          pushEncKey_pending w ctx _ _ _ m err hp, pushLKS_pending w ctx m err hp]
  | false =>
    cases hS : pargs.SkipSignerPush with
    | false =>
      simp only [Bool.false_eq_true, if_false, Bool.not_false, if_true,
        pushSibkey_pending w ctx pargs m err hp, Outcome.andThen]
      cases hg : m.e.naclSignGen with
      | none => rfl
      | some g =>
        simp [Outcome.machine, Outcome.andThen,
          pushEncKey_pending w ctx _ _ _ m err hp, pushLKS_pending w ctx m err hp]
    | true =>
      simp [Outcome.machine, Outcome.andThen,
        pushEncKey_pending w ctx _ _ _ m err hp, pushLKS_pending w ctx m err hp]

theorem Push_pending (w : World) (ctx : Context) (pargs : DeviceKeygenPushArgs)
    (m : Machine) (err : Error) (hp : m.e.pushErr = some err) (hk : KeysGenerated m.e) :
    Push w ctx pargs m = Outcome.done (some err) m := by
  obtain ⟨m1, l, h, part⟩ := Push_part w ctx pargs m hk
  have hm : m1 = m := by
    have := Push_pending_machine w ctx pargs m err hp
    rw [h] at this
    exact this
  subst hm
  rw [h, hp]

theorem KeysGenerated.afterSignPush {m : Machine} (hk : KeysGenerated m.e) (g g1 : NaclKeyGen)
    (hg : m.e.naclSignGen = some g) (hpair : g1.pair = g.pair) (lctx : Option LoginContext)
    (r : Option Error) : KeysGenerated (Engine.afterSignPush m g1 lctx r).e := by
  unfold KeysGenerated at *
  simpa [Engine.afterSignPush, NaclKeyGen.GetKeyPair, hpair, hg] using hk

theorem KeysGenerated.afterEncPush {m : Machine} (hk : KeysGenerated m.e) (g g1 : NaclKeyGen)
    (hg : m.e.naclEncGen = some g) (hpair : g1.pair = g.pair) (lctx : Option LoginContext)
    (r : Option Error) : KeysGenerated (Engine.afterEncPush m g1 lctx r).e := by
  unfold KeysGenerated at *
  simpa [Engine.afterEncPush, NaclKeyGen.GetKeyPair, hpair, hg] using hk

/-- The calls `pushLKS` makes are none of the key-statement publishes. -/
theorem PushPart.lks_no_publish {m m1 : Machine} {l : List Event}
    (h : PushPart m m1 l [PushStep.recoveryCiphertext, PushStep.postRecord, PushStep.resync]) :
    ∀ ev ∈ l, ∀ gen pair arg lctx, ev.call ≠ Call.Push gen pair arg lctx := by
  intro ev hev gen pair arg lctx hc
  have hmem : ev.call.pushStep ∈ [PushStep.recoveryCiphertext, PushStep.postRecord,
      PushStep.resync].map some :=
    h.kinds.subset (List.mem_map.mpr ⟨ev, hev, rfl⟩)
  rw [hc] at hmem
  cases gen <;> simp [Call.pushStep] at hmem

/-- With a push error pending, a push returns it as soon as the signing generator holds a
key pair; the encryption generator is not looked at. -/
theorem Push_pending_signed (w : World) (ctx : Context) (pargs : DeviceKeygenPushArgs)
    (m : Machine) (err : Error) (hp : m.e.pushErr = some err)
    (hs : (m.e.naclSignGen.bind NaclKeyGen.GetKeyPair).isSome = true) :
    Push w ctx pargs m = Outcome.done (some err) m := by
  cases hg : m.e.naclSignGen with
  | none => simp [hg] at hs
  | some g =>
    cases hk : g.pair with
    | none => simp [hg, NaclKeyGen.GetKeyPair, hk] at hs
    | some k =>
      unfold Push
      cases hE : pargs.IsEldest with
      | true =>
        simp [pushEldest_pending w ctx pargs m err hp, Outcome.andThen, hg,
          NaclKeyGen.GetKeyPair, hk, asGenericKey,
          pushEncKey_pending w ctx _ _ _ m err hp, pushLKS_pending w ctx m err hp, hp]
      | false =>
        cases hS : pargs.SkipSignerPush with
        | false =>
          simp [pushSibkey_pending w ctx pargs m err hp, Outcome.andThen, hg,
            pushEncKey_pending w ctx _ _ _ m err hp, pushLKS_pending w ctx m err hp, hp]
        | true =>
          simp [Outcome.andThen, pushEncKey_pending w ctx _ _ _ m err hp,
            pushLKS_pending w ctx m err hp, hp]

/-- With a push error pending, a push that skips the signer returns it on any engine. -/
theorem Push_pending_skip (w : World) (ctx : Context) (pargs : DeviceKeygenPushArgs)
    (m : Machine) (err : Error) (hp : m.e.pushErr = some err)
    (hE : pargs.IsEldest = false) (hS : pargs.SkipSignerPush = true) :
    Push w ctx pargs m = Outcome.done (some err) m := by
  unfold Push
  simp [hE, hS, Outcome.andThen, pushEncKey_pending w ctx _ _ _ m err hp,
    pushLKS_pending w ctx m err hp, hp]

/-! ### What `Run` leaves behind -/


theorem Run_pending (w : World) (ctx : Context) (m : Machine) (err : Error)
    (h : m.e.runErr = some err) : Run w ctx m = Outcome.done (some err) m := by
  simp [Run, setup, generate, localSave, h, Outcome.andThen]

theorem newNaclArg_Generator (e : DeviceKeygen) (ctx : Context) (gen : NaclGenerator)
    (expire : Expire) : (newNaclArg e ctx gen expire).Generator = gen := rfl

theorem Run_state (w : World) (ctx : Context) (m : Machine) (h : m.e.runErr = none) :
    ∃ ret m1, Run w ctx m = Outcome.done ret m1 ∧ m1.e.pushErr = m.e.pushErr ∧
      m1.e.args = m.e.args ∧
      (ret = none → ∃ sp ep,
        m1.e.naclSignGen = some
          { arg := newNaclArg m.e ctx NaclGenerator.GenerateNaclSigningKeyPair
              Expire.NaclEdDSAExpireIn
            pair := some (NaclKeyPair.NaclSigningKeyPair sp) } ∧
        m1.e.naclEncGen = some
          { arg := newNaclArg m.e ctx NaclGenerator.GenerateNaclDHKeyPair Expire.NaclDHExpireIn
            pair := some (NaclKeyPair.NaclDHKeyPair ep) }) := by
  generalize hR : Run w ctx m = R
  simp only [Run, setup, generate, h, Outcome.andThen, NaclKeyGen.Generate, runGenerator,
    NewNaclKeyGen, localSave, perform, NaclKeyGen.SaveLKS, newNaclArg_Generator] at hR
  rcases hS : w.GenerateNaclSigningKeyPair m.calls with e1 | kp1
  · simp [hS] at hR
    subst hR
    exact ⟨_, _, rfl, rfl, rfl, by simp⟩
  rcases hD : w.GenerateNaclDHKeyPair
      (m.calls ++ [{ call := Call.Generate Slot.naclSignGen
                        NaclGenerator.GenerateNaclSigningKeyPair, err := none }]) with e2 | kp2
  · simp [hS, hD] at hR
    subst hR
    exact ⟨_, _, rfl, rfl, rfl, by simp⟩
  rcases hP : w.respond
      (m.calls ++ [{ call := Call.Generate Slot.naclSignGen
                        NaclGenerator.GenerateNaclSigningKeyPair, err := none },
                   { call := Call.Generate Slot.naclEncGen
                        NaclGenerator.GenerateNaclDHKeyPair, err := none }])
      (Call.SaveLKS Slot.naclSignGen (some (NaclKeyPair.NaclSigningKeyPair kp1)) m.e.args.Lks
        ctx.LoginContext) with _ | e3
  · rcases hQ : w.respond
        (m.calls ++ [{ call := Call.Generate Slot.naclSignGen
                          NaclGenerator.GenerateNaclSigningKeyPair, err := none },
                     { call := Call.Generate Slot.naclEncGen
                          NaclGenerator.GenerateNaclDHKeyPair, err := none },
                     { call := Call.SaveLKS Slot.naclSignGen
                          (some (NaclKeyPair.NaclSigningKeyPair kp1)) m.e.args.Lks
                          ctx.LoginContext, err := none }])
        (Call.SaveLKS Slot.naclEncGen (some (NaclKeyPair.NaclDHKeyPair kp2)) m.e.args.Lks
          ctx.LoginContext) with _ | e4
    · simp [hS, hD, hP, hQ] at hR
      subst hR
      exact ⟨_, _, rfl, rfl, rfl, by simp [hQ]⟩
    · simp [hS, hD, hP, hQ] at hR
      subst hR
      exact ⟨_, _, rfl, rfl, rfl, by simp [hQ]⟩
  · simp [hS, hD, hP] at hR
    subst hR
    exact ⟨_, _, rfl, rfl, rfl, by simp [hP]⟩

theorem Run_pushErr (w : World) (ctx : Context) (m : Machine) :
    (Run w ctx m).machine.e.pushErr = m.e.pushErr := by
  cases h : m.e.runErr with
  | some err => rw [Run_pending w ctx m err h]; rfl
  | none =>
    obtain ⟨ret, m1, h1, h2, _⟩ := Run_state w ctx m h
    rw [h1]
    exact h2

/-! ## Run -/

/-- C7: `Run` on an engine with no earlier run error is a short-circuit pipeline over
generate signing key, generate encryption key, persist signing key, persist encryption key.
It always returns; the calls it makes are an initial part of the pipeline, in order; it
returns nil exactly when all four steps ran and all succeeded; when it returns an error, that
error is the one of the last call made, every call before it succeeded, and no later step
ran.  In particular a failing signing-key generation is the only call made. -/
theorem Run_short_circuit (w : World) (ctx : Context) (m : Machine) (h : m.e.runErr = none) :
    ∃ ret m1, Run w ctx m = Outcome.done ret m1 ∧ ret = m1.e.runErr ∧
      (newCalls m m1).map (fun ev => ev.call.runStep) <+: runPipeline.map some ∧
      (ret = none ↔ (newCalls m m1).length = 4 ∧ ∀ ev ∈ newCalls m m1, ev.err = none) ∧
      (∀ err, ret = some err →
        (newCalls m m1).getLast?.bind (fun ev => ev.err) = some err ∧
        ∀ ev ∈ (newCalls m m1).dropLast, ev.err = none) ∧
      (∀ err, w.GenerateNaclSigningKeyPair m.calls = Except.error err →
        ret = some err ∧
        newCalls m m1 = [{ call := Call.Generate Slot.naclSignGen
                              NaclGenerator.GenerateNaclSigningKeyPair, err := some err }]) := by
  generalize hR : Run w ctx m = R
  simp only [Run, setup, generate, h, Outcome.andThen, NaclKeyGen.Generate, runGenerator,
    NewNaclKeyGen, newNaclArg, localSave, perform, NaclKeyGen.SaveLKS] at hR
  rcases hS : w.GenerateNaclSigningKeyPair m.calls with e1 | kp1
  · simp [hS] at hR
    subst hR
    refine ⟨_, _, rfl, rfl, ?_⟩
    simp [newCalls, runPipeline, Call.runStep]
  rcases hD : w.GenerateNaclDHKeyPair
      (m.calls ++ [{ call := Call.Generate Slot.naclSignGen
                        NaclGenerator.GenerateNaclSigningKeyPair, err := none }]) with e2 | kp2
  · simp [hS, hD] at hR
    subst hR
    refine ⟨_, _, rfl, rfl, ?_⟩
    simp [newCalls, runPipeline, Call.runStep]
  rcases hP : w.respond
      (m.calls ++ [{ call := Call.Generate Slot.naclSignGen
                        NaclGenerator.GenerateNaclSigningKeyPair, err := none },
                   { call := Call.Generate Slot.naclEncGen
                        NaclGenerator.GenerateNaclDHKeyPair, err := none }])
      (Call.SaveLKS Slot.naclSignGen (some (NaclKeyPair.NaclSigningKeyPair kp1)) m.e.args.Lks
        ctx.LoginContext) with _ | e3
  · rcases hQ : w.respond
        (m.calls ++ [{ call := Call.Generate Slot.naclSignGen
                          NaclGenerator.GenerateNaclSigningKeyPair, err := none },
                     { call := Call.Generate Slot.naclEncGen
                          NaclGenerator.GenerateNaclDHKeyPair, err := none },
                     { call := Call.SaveLKS Slot.naclSignGen
                          (some (NaclKeyPair.NaclSigningKeyPair kp1)) m.e.args.Lks
                          ctx.LoginContext, err := none }])
        (Call.SaveLKS Slot.naclEncGen (some (NaclKeyPair.NaclDHKeyPair kp2)) m.e.args.Lks
          ctx.LoginContext) with _ | e4
    · simp [hS, hD, hP, hQ] at hR
      subst hR
      refine ⟨_, _, rfl, rfl, ?_⟩
      simp [newCalls, runPipeline, Call.runStep, hQ]
    · simp [hS, hD, hP, hQ] at hR
      subst hR
      refine ⟨_, _, rfl, rfl, ?_⟩
      simp [newCalls, runPipeline, Call.runStep, hQ]
  · simp [hS, hD, hP] at hR
    subst hR
    refine ⟨_, _, rfl, rfl, ?_⟩
    simp [newCalls, runPipeline, Call.runStep, hP]

/-! ## SigningKeyPublic -/

/-- C8 fails on a freshly constructed engine: `NewDeviceKeygen` leaves `naclSignGen` nil, so
`SigningKeyPublic` dereferences nil and panics; it returns neither a key nor an error. -/
theorem SigningKeyPublic_fresh_does_not_return :
    (NewDeviceKeygen sampleArgs).naclSignGen = none ∧
    SigningKeyPublic (freshMachine sampleArgs) = Outcome.panic (freshMachine sampleArgs) ∧
    ¬ ∃ pub err m1, SigningKeyPublic (freshMachine sampleArgs) = Outcome.done (pub, err) m1 := by
  refine ⟨rfl, rfl, ?_⟩
  rintro ⟨pub, err, m1, h⟩
  simp [SigningKeyPublic, freshMachine, NewDeviceKeygen] at h

/-- C8 (amended): once the signing generator exists (`Run` has been called),
`SigningKeyPublic` returns and leaves the engine as it is: while no signing key has been
generated it returns an error, a `BadKeyError` naming the type `<nil>`; when the held pair is
not of the signing-key variant it returns a `BadKeyError` naming that pair's type, distinct
from the error of the not-yet-generated case; and for a `NaclSigningKeyPair` it returns that
pair's `Public` part with a nil error. -/
theorem SigningKeyPublic_spec (m : Machine) (g : NaclKeyGen) (hg : m.e.naclSignGen = some g) :
    (g.pair = none → SigningKeyPublic m = Outcome.done
      (NaclSigningKeyPublic.zero, some (Error.BadKeyError "invalid key type <nil>")) m) ∧
    (∀ p, g.pair = some (NaclKeyPair.NaclDHKeyPair p) → SigningKeyPublic m = Outcome.done
      (NaclSigningKeyPublic.zero,
        some (Error.BadKeyError "invalid key type libkb.NaclDHKeyPair")) m) ∧
    (∀ s, g.pair = some (NaclKeyPair.NaclSigningKeyPair s) →
      SigningKeyPublic m = Outcome.done (s.Public, none) m) ∧
    Error.BadKeyError "invalid key type <nil>" ≠
      Error.BadKeyError "invalid key type libkb.NaclDHKeyPair" := by
  refine ⟨?_, ?_, ?_, by decide⟩
  · intro hp
    simp [SigningKeyPublic, hg, NaclKeyGen.GetKeyPair, hp, typeName]
  · intro p hp
    simp [SigningKeyPublic, hg, NaclKeyGen.GetKeyPair, hp, typeName]
  · intro s hp
    simp [SigningKeyPublic, hg, NaclKeyGen.GetKeyPair, hp]

theorem SigningKeyPublic_spec_witness :
    ranMachine.e.naclSignGen = some (NaclKeyGen.mk
      (newNaclArg (NewDeviceKeygen sampleArgs) sampleCtx
        NaclGenerator.GenerateNaclSigningKeyPair Expire.NaclEdDSAExpireIn)
      (some (NaclKeyPair.NaclSigningKeyPair sampleSignPair))) ∧
    SigningKeyPublic ranMachine = Outcome.done (sampleSignPair.Public, none) ranMachine :=
  ⟨rfl, (SigningKeyPublic_spec ranMachine _ rfl).2.2.1 sampleSignPair rfl⟩

/-! ## pushLKS -/

/-- C5: with no earlier push error pending, `pushLKS` on a nil key-security context sets
"no local key security set", and on a context whose cached server half is empty sets
"LKS server half is empty, and should not be"; the two errors differ, and in both cases
nothing else changes: no recovery ciphertext is computed, nothing is posted, no resync runs. -/
theorem pushLKS_preconditions (w : World) (ctx : Context) (m : Machine)
    (hp : m.e.pushErr = none) :
    (m.e.args.Lks = none →
      pushLKS w ctx m = Outcome.done () { m with e := { m.e with pushErr := some errNoLKS } } ∧
      newCalls m (pushLKS w ctx m).machine = []) ∧
    (∀ lks, m.e.args.Lks = some lks → lks.GetServerHalf.length = 0 →
      pushLKS w ctx m =
        Outcome.done () { m with e := { m.e with pushErr := some errEmptyServerHalf } } ∧
      newCalls m (pushLKS w ctx m).machine = []) ∧
    errNoLKS ≠ errEmptyServerHalf := by
  refine ⟨?_, ?_, by decide⟩
  · intro hl
    rw [pushLKS_nil w ctx m hp hl]
    exact ⟨rfl, by simp [newCalls, Outcome.machine]⟩
  · intro lks hl hs
    have hs1 : lks.serverHalf = [] := by simpa [LKSec.GetServerHalf] using hs
    rw [pushLKS_empty w ctx m lks hp hl hs1]
    exact ⟨rfl, by simp [newCalls, Outcome.machine]⟩

theorem pushLKS_preconditions_witness :
    ranEmptyHalf.e.pushErr = none ∧
    (pushLKS okWorld sampleCtx ranEmptyHalf).machine.e.pushErr = some errEmptyServerHalf ∧
    newCalls ranEmptyHalf (pushLKS okWorld sampleCtx ranEmptyHalf).machine = [] := by
  have h := (pushLKS_preconditions okWorld sampleCtx ranEmptyHalf rfl).2.1 emptyLks rfl rfl
  exact ⟨rfl, by rw [h.1]; rfl, h.2⟩

/-! ## The push error is sticky -/

/-- C10 fails as worded: `Run` fails at the signing-key generation, so the signing generator
holds no pair; a sibling push on that engine has its publish rejected and returns that
error; an eldest push on the same engine then asks the nil key pair for its KID and panics:
it makes no call, but it does not return the error. -/
theorem Push_after_failed_Run_panics :
    Push failSignGenWorld sampleCtx siblingArgs failedRunMachine =
      Outcome.done (some (Error.remote 2)) stuckMachine ∧
    stuckMachine.e.pushErr = some (Error.remote 2) ∧
    Push okWorld sampleCtx eldestArgs stuckMachine = Outcome.panic stuckMachine ∧
    ¬ ∃ ret m1, Push okWorld sampleCtx eldestArgs stuckMachine = Outcome.done ret m1 := by
  have h : Push okWorld sampleCtx eldestArgs stuckMachine = Outcome.panic stuckMachine := rfl
  refine ⟨rfl, rfl, h, ?_⟩
  rintro ⟨ret, m1, h1⟩
  rw [h] at h1
  exact Outcome.noConfusion h1

/-- C10 (amended): once `pushErr` is non-nil nothing resets it.  On an engine left by a `Push`
that returned the error `e`, `Run` keeps `pushErr = e`, and every later `Push`, whatever its
arguments and whatever the collaborators would answer, makes no call and leaves the engine
as it is (so this holds for every push after it as well); any value it returns is `e`; and
it does return `e` when the signing generator holds a generated key pair, and for a push
with `IsEldest = false` and `SkipSignerPush = true` on any engine. -/
theorem pushErr_sticky (w0 : World) (ctx0 : Context) (pargs0 : DeviceKeygenPushArgs)
    (m0 m : Machine) (e : Error) (h : Push w0 ctx0 pargs0 m0 = Outcome.done (some e) m) :
    m.e.pushErr = some e ∧
    (∀ w ctx, (Run w ctx m).machine.e.pushErr = some e) ∧
    (∀ w ctx pargs,
      (Push w ctx pargs m).machine = m ∧
      newCalls m (Push w ctx pargs m).machine = [] ∧
      (∀ ret m1, Push w ctx pargs m = Outcome.done ret m1 → ret = some e ∧ m1 = m) ∧
      ((m.e.naclSignGen.bind NaclKeyGen.GetKeyPair).isSome = true →
        Push w ctx pargs m = Outcome.done (some e) m) ∧
      (pargs.IsEldest = false → pargs.SkipSignerPush = true →
        Push w ctx pargs m = Outcome.done (some e) m)) := by
  have hp : m.e.pushErr = some e := (Push_ret w0 ctx0 pargs0 m0 m (some e) h).symm
  refine ⟨hp, ?_, ?_⟩
  · intro w ctx
    rw [Run_pushErr, hp]
  · intro w ctx pargs
    have hm := Push_pending_machine w ctx pargs m e hp
    refine ⟨hm, by rw [hm]; simp [newCalls], ?_, Push_pending_signed w ctx pargs m e hp,
      Push_pending_skip w ctx pargs m e hp⟩
    intro ret m1 h1
    have h2 : m1 = m := by
      rw [h1] at hm
      exact hm
    subst h2
    exact ⟨by rw [Push_ret w ctx pargs m1 m1 ret h1, hp], rfl⟩

theorem pushErr_sticky_witness :
    Push rejectEncWorld sampleCtx siblingArgs ranMachine =
      Outcome.done (some (Error.remote 1))
        (Push rejectEncWorld sampleCtx siblingArgs ranMachine).machine ∧
    Push okWorld sampleCtx eldestArgs
        (Push rejectEncWorld sampleCtx siblingArgs ranMachine).machine =
      Outcome.done (some (Error.remote 1))
        (Push rejectEncWorld sampleCtx siblingArgs ranMachine).machine :=
  ⟨rfl, (pushErr_sticky rejectEncWorld sampleCtx siblingArgs ranMachine _ (Error.remote 1)
    rfl).2.2 okWorld sampleCtx eldestArgs |>.2.2.2.1 (by decide)⟩

/-! ## First error wins -/

/-- C4: with the keys generated, `Push` returns, and what it returns is `e.pushErr`.  The
calls it makes are steps of the sequence signing-key publish, encryption-key publish,
recovery ciphertext, record post, resync, in that order and each at most once; every call
but the last one made succeeded, so nothing is invoked after a failing step; and when the
last call failed, `Push` returns exactly its error.  In particular, for a sibling push whose
signing-key statement is accepted and whose encryption-key statement is rejected, the calls
are exactly those two publishes and `Push` returns the rejection: no recovery ciphertext, no
record post, no resync. -/
theorem Push_first_error_wins (w : World) (ctx : Context) (pargs : DeviceKeygenPushArgs)
    (m : Machine) (hk : KeysGenerated m.e) :
    ∃ ret m1, Push w ctx pargs m = Outcome.done ret m1 ∧ ret = m1.e.pushErr ∧
      List.Sublist ((newCalls m m1).map (fun ev => ev.call.pushStep)) (pushPipeline.map some) ∧
      (∀ ev ∈ (newCalls m m1).dropLast, ev.err = none) ∧
      (∀ ev err, (newCalls m m1).getLast? = some ev → ev.err = some err → ret = some err) ∧
      (ret = none → ∀ ev ∈ newCalls m m1, ev.err = none) ∧
      (∀ sg eg err, m.e.pushErr = none → pargs.IsEldest = false →
        pargs.SkipSignerPush = false → m.e.naclSignGen = some sg → m.e.naclEncGen = some eg →
        w.respond m.calls
          ((sg.UpdateArg pargs.Signer pargs.EldestKID true pargs.User).Push Slot.naclSignGen
            ctx.LoginContext) = none →
        w.respond
          (m.calls ++
            [Event.mk ((sg.UpdateArg pargs.Signer pargs.EldestKID true pargs.User).Push
              Slot.naclSignGen ctx.LoginContext) none])
          ((eg.UpdateArg (asGenericKey sg.pair) pargs.EldestKID false pargs.User).Push
            Slot.naclEncGen ctx.LoginContext) = some err →
        ret = some err ∧
        newCalls m m1 =
          [Event.mk ((sg.UpdateArg pargs.Signer pargs.EldestKID true pargs.User).Push
             Slot.naclSignGen ctx.LoginContext) none,
           Event.mk ((eg.UpdateArg (asGenericKey sg.pair) pargs.EldestKID false pargs.User).Push
             Slot.naclEncGen ctx.LoginContext) (some err)]) := by
  obtain ⟨m1, l, h, part⟩ := Push_part w ctx pargs m hk
  refine ⟨_, m1, h, rfl, ?_, ?_, ?_, ?_, ?_⟩
  · rw [part.newCalls]
    refine part.kinds.trans ?_
    split
    · exact List.Sublist.refl _
    · exact List.Sublist.map _ (List.tail_sublist _)
  · rw [part.newCalls]
    exact part.few.2.2.1
  · rw [part.newCalls]
    exact part.few.2.2.2
  · rw [part.newCalls]
    exact part.few.2.1
  · intro sg eg err hp hE hS hsg heg h1 h2
    have e1 := pushSibkey_eq w ctx pargs m sg hp hsg
    rw [h1] at e1
    have e2 := pushEncKey_eq w ctx (asGenericKey sg.pair) pargs.EldestKID pargs.User
      (afterSignPush m (sg.UpdateArg pargs.Signer pargs.EldestKID true pargs.User)
        ctx.LoginContext none) eg rfl heg
    have h2a : w.respond
        (afterSignPush m (sg.UpdateArg pargs.Signer pargs.EldestKID true pargs.User)
          ctx.LoginContext none).calls
        ((eg.UpdateArg (asGenericKey sg.pair) pargs.EldestKID false pargs.User).Push
          Slot.naclEncGen ctx.LoginContext) = some err := h2
    rw [h2a] at e2
    have hP : Push w ctx pargs m = Outcome.done (some err)
        (afterEncPush
          (afterSignPush m (sg.UpdateArg pargs.Signer pargs.EldestKID true pargs.User)
            ctx.LoginContext none)
          (eg.UpdateArg (asGenericKey sg.pair) pargs.EldestKID false pargs.User)
          ctx.LoginContext (some err)) := by
      unfold Push
      simp only [hE, hS, Bool.false_eq_true, if_false, Bool.not_false, if_true, e1,
        Outcome.andThen]
      have hs1 : (afterSignPush m (sg.UpdateArg pargs.Signer pargs.EldestKID true pargs.User)
          ctx.LoginContext none).e.naclSignGen =
          some (sg.UpdateArg pargs.Signer pargs.EldestKID true pargs.User) := rfl
      simp only [hs1]
      have hs2 : (sg.UpdateArg pargs.Signer pargs.EldestKID true pargs.User).GetKeyPair =
          sg.pair := rfl
      rw [hs2, e2]
      simp only [Outcome.andThen]
      rw [pushLKS_pending w ctx _ err rfl]
      rfl
    rw [h] at hP
    simp only [Outcome.done.injEq] at hP
    refine ⟨hP.1, ?_⟩
    rw [hP.2]
    simp [newCalls, afterEncPush, afterSignPush]

/-! ## The three roles -/

/-- C1: the eldest scenario.  Take an engine with no push error pending on which `Run` has
just returned nil, with a key-security context whose server half is non-empty, and a world
in which every call of a push succeeds.  Then `Push` with `IsEldest = true` returns nil and
makes exactly five calls, in this order: the publish of the generated signing key pair with
the argument block `Run` built (no authorizer, no eldest key identifier, whatever `Signer`
and `EldestKID` the push arguments hold); the publish of the generated encryption key pair,
authorized by that signing key pair, with that signing key's KID as eldest key identifier;
the recovery-ciphertext computation; the post of the key-security record; the resync. -/
theorem Push_eldest_scenario (w : World) (ctx0 ctx : Context) (pargs : DeviceKeygenPushArgs)
    (m0 m : Machine) (lks : LKSec)
    (hrun : Run w ctx0 m0 = Outcome.done none m) (hp : m0.e.pushErr = none)
    (hl : m0.e.args.Lks = some lks) (hs : lks.GetServerHalf ≠ [])
    (hE : pargs.IsEldest = true)
    (hok : ∀ h c, c.pushStep ≠ none → w.respond h c = none)
    (henc : ∀ h l k, (w.EncryptClientHalfRecovery h l k).2 = none) :
    ∃ sp ep a2 chr m1,
      m.e.naclSignGen.bind NaclKeyGen.GetKeyPair = some (NaclKeyPair.NaclSigningKeyPair sp) ∧
      m.e.naclEncGen.bind NaclKeyGen.GetKeyPair = some (NaclKeyPair.NaclDHKeyPair ep) ∧
      Push w ctx pargs m = Outcome.done none m1 ∧
      newCalls m m1 =
        [Event.mk (Call.Push Slot.naclSignGen (some (NaclKeyPair.NaclSigningKeyPair sp))
            (newNaclArg m0.e ctx0 NaclGenerator.GenerateNaclSigningKeyPair
              Expire.NaclEdDSAExpireIn) ctx.LoginContext) none,
         Event.mk (Call.Push Slot.naclEncGen (some (NaclKeyPair.NaclDHKeyPair ep)) a2
            ctx.LoginContext) none,
         Event.mk (Call.EncryptClientHalfRecovery lks (NaclKeyPair.NaclDHKeyPair ep)) none,
         Event.mk (Call.PostDeviceLKS ctx.LoginContext m0.e.args.DeviceID.String
            DeviceType.DeviceTypeDesktop lks.GetServerHalf lks.Generation chr ep.kid) none,
         Event.mk (Call.RunSecretSyncer ctx.LoginContext m0.e.args.Me.GetUID) none] ∧
      (newNaclArg m0.e ctx0 NaclGenerator.GenerateNaclSigningKeyPair
        Expire.NaclEdDSAExpireIn).Signer = none ∧
      (newNaclArg m0.e ctx0 NaclGenerator.GenerateNaclSigningKeyPair
        Expire.NaclEdDSAExpireIn).EldestKeyID = [] ∧
      a2.Signer = some (GenericKey.nacl (NaclKeyPair.NaclSigningKeyPair sp)) ∧
      a2.EldestKeyID = sp.kid ∧ a2.Sibkey = false := by
  have hr0 : m0.e.runErr = none := by
    cases h : m0.e.runErr with
    | none => rfl
    | some err =>
      rw [Run_pending w ctx0 m0 err h] at hrun
      simp at hrun
  obtain ⟨ret, m', h1, hpe, hargs, hgens⟩ := Run_state w ctx0 m0 hr0
  rw [hrun] at h1
  simp only [Outcome.done.injEq] at h1
  obtain ⟨hret, hm⟩ := h1
  subst hm
  subst hret
  obtain ⟨sp, ep, hsg, heg⟩ := hgens rfl
  have hpm : m.e.pushErr = none := by rw [hpe, hp]
  have hlm : m.e.args.Lks = some lks := by rw [hargs, hl]
  have hs1 : lks.serverHalf ≠ [] := hs
  obtain ⟨sg, hsgd⟩ : ∃ sg : NaclKeyGen, sg =
      { arg := newNaclArg m0.e ctx0 NaclGenerator.GenerateNaclSigningKeyPair
          Expire.NaclEdDSAExpireIn
        pair := some (NaclKeyPair.NaclSigningKeyPair sp) } := ⟨_, rfl⟩
  obtain ⟨eg, hegd⟩ : ∃ eg : NaclKeyGen, eg =
      { arg := newNaclArg m0.e ctx0 NaclGenerator.GenerateNaclDHKeyPair Expire.NaclDHExpireIn
        pair := some (NaclKeyPair.NaclDHKeyPair ep) } := ⟨_, rfl⟩
  rw [← hsgd] at hsg
  rw [← hegd] at heg
  have hsgp : sg.pair = some (NaclKeyPair.NaclSigningKeyPair sp) := by rw [hsgd]
  have hegp : eg.pair = some (NaclKeyPair.NaclDHKeyPair ep) := by rw [hegd]
  obtain ⟨eg1, heg1⟩ : ∃ eg1 : NaclKeyGen, eg1 =
      eg.UpdateArg (some (GenericKey.nacl (NaclKeyPair.NaclSigningKeyPair sp))) sp.kid false
        pargs.User := ⟨_, rfl⟩
  obtain ⟨m1, hm1⟩ : ∃ m1, m1 = afterSignPush m sg ctx.LoginContext none := ⟨_, rfl⟩
  obtain ⟨m2, hm2⟩ : ∃ m2, m2 = afterEncPush m1 eg1 ctx.LoginContext none := ⟨_, rfl⟩
  -- signing key
  have e1 := pushEldest_eq w ctx pargs m sg hpm hsg
  rw [hok _ _ (by simp [NaclKeyGen.Push, Call.pushStep]), ← hm1] at e1
  -- encryption key
  have e2 := pushEncKey_eq w ctx
    (some (GenericKey.nacl (NaclKeyPair.NaclSigningKeyPair sp))) sp.kid pargs.User
    m1 eg (by rw [hm1]; rfl) (by rw [hm1]; exact heg)
  rw [hok _ _ (by simp [NaclKeyGen.Push, Call.pushStep]), ← heg1, ← hm2] at e2
  -- key-security record
  have e3 := pushLKS_synced w ctx m2 lks eg1 (NaclKeyPair.NaclDHKeyPair ep)
    (w.EncryptClientHalfRecovery m2.calls lks (NaclKeyPair.NaclDHKeyPair ep)).1 none
    (by rw [hm2]; rfl) (by rw [hm2, hm1]; exact hlm) hs1 (by rw [hm2]; rfl)
    (by rw [heg1]; exact hegp)
    (Prod.ext rfl (henc _ _ _))
    (hok _ _ (by simp [postCall, Call.pushStep]))
    (hok _ _ (by simp [Call.pushStep]))
  obtain ⟨m3, e3a, hc3, he3⟩ : ∃ m3, pushLKS w ctx m2 = Outcome.done () m3 ∧
      m3.calls = m2.calls ++
        [encryptEvent lks (NaclKeyPair.NaclDHKeyPair ep) none,
         Event.mk (postCall ctx m2.e lks
           (w.EncryptClientHalfRecovery m2.calls lks (NaclKeyPair.NaclDHKeyPair ep)).1
           (NaclKeyPair.NaclDHKeyPair ep).GetKid) none,
         Event.mk (Call.RunSecretSyncer ctx.LoginContext m2.e.args.Me.GetUID) none] ∧
      m3.e.pushErr = none := ⟨_, e3, rfl, rfl⟩
  refine ⟨sp, ep, eg1.arg,
    (w.EncryptClientHalfRecovery m2.calls lks (NaclKeyPair.NaclDHKeyPair ep)).1, m3,
    by simp [hsg, NaclKeyGen.GetKeyPair, hsgp],
    by simp [heg, NaclKeyGen.GetKeyPair, hegp], ?_, ?_, rfl, rfl, ?_, ?_, ?_⟩
  · unfold Push
    simp only [hE, if_true, e1, Outcome.andThen]
    have hs2 : m1.e.naclSignGen = some sg := by rw [hm1]; rfl
    simp only [hs2, NaclKeyGen.GetKeyPair, hsgp, asGenericKey, Option.map_some',
      GenericKey.GetKid, NaclKeyPair.GetKid]
    rw [e2]
    simp only [Outcome.andThen]
    rw [e3a]
    simp only [he3]
  · have ha2 : m2.e.args = m0.e.args := by rw [hm2, hm1]; exact hargs
    have hcm2 : m2.calls = m.calls ++
        [Event.mk (sg.Push Slot.naclSignGen ctx.LoginContext) none,
         Event.mk (eg1.Push Slot.naclEncGen ctx.LoginContext) none] := by
      rw [hm2, hm1]
      simp [afterEncPush, afterSignPush]
    simp only [newCalls, hc3]
    rw [hcm2]
    simp [NaclKeyGen.Push, encryptEvent, postCall, ha2, LKSec.GetServerHalf, LKSec.Generation,
      NaclKeyPair.GetKid, hsgd, heg1, hegd, NaclKeyGen.UpdateArg]
  · rw [heg1]
    rfl
  · rw [heg1]
    rfl
  · rw [heg1]
    rfl

/-- C2: a sibling push (`IsEldest = false`, `SkipSignerPush = false`) with the keys generated
and no push error pending, whose signing-key publish succeeds.  `Push` returns; its first
call publishes the signing key pair as a sibkey authorized by the caller's `Signer` with the
caller's `EldestKID` (and the caller's `User`, when given); its second call publishes the
encryption key pair with the newly generated signing key pair as authorizer, not the
caller's `Signer`, and with the caller's `EldestKID`; no later call is a publish. -/
theorem Push_sibling (w : World) (ctx : Context) (pargs : DeviceKeygenPushArgs) (m : Machine)
    (sg eg : NaclKeyGen) (hk : KeysGenerated m.e) (hp : m.e.pushErr = none)
    (hE : pargs.IsEldest = false) (hS : pargs.SkipSignerPush = false)
    (hsg : m.e.naclSignGen = some sg) (heg : m.e.naclEncGen = some eg)
    (hok : w.respond m.calls
      ((sg.UpdateArg pargs.Signer pargs.EldestKID true pargs.User).Push Slot.naclSignGen
        ctx.LoginContext) = none) :
    ∃ m1 a1 a2 r rest sp, Push w ctx pargs m = Outcome.done m1.e.pushErr m1 ∧
      newCalls m m1 =
        Event.mk (Call.Push Slot.naclSignGen sg.pair a1 ctx.LoginContext) none ::
        Event.mk (Call.Push Slot.naclEncGen eg.pair a2 ctx.LoginContext) r :: rest ∧
      a1.Signer = pargs.Signer ∧ a1.EldestKeyID = pargs.EldestKID ∧ a1.Sibkey = true ∧
      (∀ u, pargs.User = some u → a1.Me = u) ∧
      sg.pair = some sp ∧ a2.Signer = some (GenericKey.nacl sp) ∧
      a2.EldestKeyID = pargs.EldestKID ∧ a2.Sibkey = false ∧
      (∀ u, pargs.User = some u → a2.Me = u) ∧
      (∀ ev ∈ rest, ∀ gen pair arg lctx, ev.call ≠ Call.Push gen pair arg lctx) := by
  obtain ⟨sg0, sp, eg0, ep, hsg0, hsp, heg0, hep⟩ := hk.unpack
  rw [hsg] at hsg0
  rw [heg] at heg0
  cases hsg0
  cases heg0
  have e1 := pushSibkey_eq w ctx pargs m sg hp hsg
  rw [hok] at e1
  have k1 := hk.afterSignPush sg (sg.UpdateArg pargs.Signer pargs.EldestKID true pargs.User)
    hsg rfl ctx.LoginContext none
  have e2 := pushEncKey_eq w ctx (asGenericKey sg.pair) pargs.EldestKID pargs.User
    (afterSignPush m (sg.UpdateArg pargs.Signer pargs.EldestKID true pargs.User)
      ctx.LoginContext none) eg rfl heg
  have k2 := k1.afterEncPush eg
    (eg.UpdateArg (asGenericKey sg.pair) pargs.EldestKID false pargs.User) heg rfl
    ctx.LoginContext
    (w.respond
      (afterSignPush m (sg.UpdateArg pargs.Signer pargs.EldestKID true pargs.User)
        ctx.LoginContext none).calls
      ((eg.UpdateArg (asGenericKey sg.pair) pargs.EldestKID false pargs.User).Push
        Slot.naclEncGen ctx.LoginContext))
  obtain ⟨m3, l3, e3, p3⟩ := pushLKS_part w ctx _ k2
  refine ⟨m3, (sg.UpdateArg pargs.Signer pargs.EldestKID true pargs.User).arg,
    (eg.UpdateArg (asGenericKey sg.pair) pargs.EldestKID false pargs.User).arg,
    w.respond
      (afterSignPush m (sg.UpdateArg pargs.Signer pargs.EldestKID true pargs.User)
        ctx.LoginContext none).calls
      ((eg.UpdateArg (asGenericKey sg.pair) pargs.EldestKID false pargs.User).Push
        Slot.naclEncGen ctx.LoginContext),
    l3, sp, ?_, ?_, ?_, ?_, ?_, ?_, hsp, ?_, ?_, ?_, ?_, p3.lks_no_publish⟩
  · unfold Push
    simp only [hE, hS, Bool.false_eq_true, if_false, Bool.not_false, if_true, e1,
      Outcome.andThen]
    have hs1 : (afterSignPush m (sg.UpdateArg pargs.Signer pargs.EldestKID true pargs.User)
        ctx.LoginContext none).e.naclSignGen =
        some (sg.UpdateArg pargs.Signer pargs.EldestKID true pargs.User) := rfl
    simp only [hs1]
    have hs2 : (sg.UpdateArg pargs.Signer pargs.EldestKID true pargs.User).GetKeyPair =
        sg.pair := rfl
    rw [hs2, e2]
    simp only [Outcome.andThen]
    rw [e3]
  · simp only [newCalls, p3.calls]
    simp [afterEncPush, afterSignPush, NaclKeyGen.Push, NaclKeyGen.UpdateArg]
  · rfl
  · rfl
  · rfl
  · intro u hu
    simp [NaclKeyGen.UpdateArg, hu]
  · simp [NaclKeyGen.UpdateArg, hsp, asGenericKey]
  · rfl
  · rfl
  · intro u hu
    simp [NaclKeyGen.UpdateArg, hu]

/-- C3: a push with `IsEldest = false` and `SkipSignerPush = true`, the keys generated.
`Push` returns, and whatever the later steps answer, none of its calls is a signing-key
publish: every publish among them is of the encryption key, authorized by the caller's
`Signer` with the caller's `EldestKID`.  With no push error pending that publish is made, as
the first call. -/
theorem Push_signer_already_pushed (w : World) (ctx : Context)
    (pargs : DeviceKeygenPushArgs) (m : Machine) (hk : KeysGenerated m.e)
    (hE : pargs.IsEldest = false) (hS : pargs.SkipSignerPush = true) :
    ∃ m1, Push w ctx pargs m = Outcome.done m1.e.pushErr m1 ∧
      (∀ ev ∈ newCalls m m1, ev.call.pushStep ≠ some PushStep.publishSigning) ∧
      (∀ ev ∈ newCalls m m1, ∀ gen pair arg lctx, ev.call = Call.Push gen pair arg lctx →
        gen = Slot.naclEncGen ∧ arg.Signer = pargs.Signer ∧
        arg.EldestKeyID = pargs.EldestKID ∧ arg.Sibkey = false) ∧
      (m.e.pushErr = none → ∃ eg a r rest, m.e.naclEncGen = some eg ∧
        newCalls m m1 =
          Event.mk (Call.Push Slot.naclEncGen eg.pair a ctx.LoginContext) r :: rest ∧
        a.Signer = pargs.Signer ∧ a.EldestKeyID = pargs.EldestKID ∧ a.Sibkey = false ∧
        (∀ u, pargs.User = some u → a.Me = u)) := by
  obtain ⟨sg, sp, eg, ep, hsg, hsp, heg, hep⟩ := hk.unpack
  cases hp : m.e.pushErr with
  | some err =>
    refine ⟨m, ?_, ?_, ?_, ?_⟩
    · rw [Push_pending w ctx pargs m err hp hk, hp]
    · simp [newCalls]
    · simp [newCalls]
    · intro h
      exact absurd h (by simp)
  | none =>
    have e2 := pushEncKey_eq w ctx pargs.Signer pargs.EldestKID pargs.User m eg hp heg
    have k2 := hk.afterEncPush eg
      (eg.UpdateArg pargs.Signer pargs.EldestKID false pargs.User) heg rfl ctx.LoginContext
      (w.respond m.calls
        ((eg.UpdateArg pargs.Signer pargs.EldestKID false pargs.User).Push Slot.naclEncGen
          ctx.LoginContext))
    obtain ⟨m3, l3, e3, p3⟩ := pushLKS_part w ctx _ k2
    have hcalls : newCalls m m3 =
        Event.mk (Call.Push Slot.naclEncGen eg.pair
          (eg.UpdateArg pargs.Signer pargs.EldestKID false pargs.User).arg ctx.LoginContext)
          (w.respond m.calls
            ((eg.UpdateArg pargs.Signer pargs.EldestKID false pargs.User).Push Slot.naclEncGen
              ctx.LoginContext)) :: l3 := by
      simp only [newCalls, p3.calls]
      simp [afterEncPush, NaclKeyGen.Push, NaclKeyGen.UpdateArg]
    refine ⟨m3, ?_, ?_, ?_, ?_⟩
    · unfold Push
      simp only [hE, hS, Bool.false_eq_true, if_false, Bool.not_true, Outcome.andThen, e2]
      rw [e3]
    · intro ev hev
      rw [hcalls] at hev
      rcases List.mem_cons.mp hev with h | h
      · rw [h]
        simp [Call.pushStep]
      · intro hc
        have hmem := p3.kinds.subset (List.mem_map.mpr ⟨ev, h, rfl⟩)
        rw [hc] at hmem
        simp at hmem
    · intro ev hev gen pair arg lctx hc
      rw [hcalls] at hev
      rcases List.mem_cons.mp hev with h | h
      · rw [h] at hc
        simp only [Call.Push.injEq] at hc
        obtain ⟨h1, _, h3, _⟩ := hc
        subst h1
        subst h3
        exact ⟨rfl, rfl, rfl, rfl⟩
      · exact absurd hc (p3.lks_no_publish ev h gen pair arg lctx)
    · intro _
      refine ⟨eg, _, _, l3, heg, hcalls, rfl, rfl, rfl, ?_⟩
      intro u hu
      simp [NaclKeyGen.UpdateArg, hu]

/-! ## The server half is checked after the publishes -/

/-- C6 fails: on an engine whose key-security context has an empty cached server half, an
eldest push in a world where every call succeeds first publishes the signing-key statement
and the encryption-key statement, both network calls, and only then fails with the
empty-server-half error. -/
theorem Push_publishes_before_server_half_check :
    ranEmptyHalf.e.args.Lks = some emptyLks ∧ emptyLks.GetServerHalf = [] ∧
    (∃ m1, Push okWorld sampleCtx eldestArgs ranEmptyHalf =
        Outcome.done (some errEmptyServerHalf) m1 ∧
      (newCalls ranEmptyHalf m1).map (fun ev => ev.call.pushStep) =
        [some PushStep.publishSigning, some PushStep.publishEncryption] ∧
      (newCalls ranEmptyHalf m1).map (fun ev => ev.call.isNetwork) = [true, true]) :=
  ⟨rfl, rfl, _, rfl, rfl, rfl⟩

/-- C6 (amended): on an engine with the keys generated, no push error pending and a
key-security context whose cached server half is empty, `Push` returns an error; the calls
it makes are key-statement publishes only, at least one of them, so the emptiness check
comes before any recovery-ciphertext computation, record post and resync but after the
publishes; when every publish succeeded the error is the empty-server-half error, and
otherwise it is the error of the publish that failed. -/
theorem Push_empty_server_half (w : World) (ctx : Context) (pargs : DeviceKeygenPushArgs)
    (m : Machine) (lks : LKSec) (hk : KeysGenerated m.e) (hp : m.e.pushErr = none)
    (hl : m.e.args.Lks = some lks) (hs : lks.GetServerHalf.length = 0) :
    ∃ err m1, Push w ctx pargs m = Outcome.done (some err) m1 ∧
      newCalls m m1 ≠ [] ∧
      (∀ ev ∈ newCalls m m1, ev.call.pushStep = some PushStep.publishSigning ∨
        ev.call.pushStep = some PushStep.publishEncryption) ∧
      ((∀ ev ∈ newCalls m m1, ev.err = none) → err = errEmptyServerHalf) ∧
      ((∃ ev ∈ newCalls m m1, ev.err ≠ none) → ∃ ev ∈ newCalls m m1, ev.err = some err) := by
  obtain ⟨m2, l12, m3, l3, p12, b12, e3, p3, e⟩ := Push_phases w ctx pargs m hk
  have hs1 : lks.serverHalf = [] := by simpa [LKSec.GetServerHalf] using hs
  have hl2 : m2.e.args.Lks = some lks := by rw [p12.frame.1, hl]
  have hkinds : ∀ ev ∈ l12, ev.call.pushStep = some PushStep.publishSigning ∨
      ev.call.pushStep = some PushStep.publishEncryption := by
    intro ev hev
    have hmem := p12.kinds.subset (List.mem_map.mpr ⟨ev, hev, rfl⟩)
    split at hmem <;> simp at hmem <;> tauto
  cases h2 : m2.e.pushErr with
  | some err2 =>
    have hm3 : m3 = m2 := by
      rw [pushLKS_pending w ctx m2 err2 h2] at e3
      simp only [Outcome.done.injEq, true_and] at e3
      exact e3.symm
    subst hm3
    rw [h2] at e
    obtain ⟨hne, hb⟩ := b12 hp
    obtain ⟨ev, hev, herr⟩ := hb err2 h2
    refine ⟨err2, m3, e, ?_, ?_, ?_, ?_⟩
    · rw [p12.newCalls]
      exact hne
    · rw [p12.newCalls]
      exact hkinds
    · rw [p12.newCalls]
      intro hall
      rw [hall ev hev] at herr
      exact absurd herr (by simp)
    · rw [p12.newCalls]
      intro _
      exact ⟨ev, hev, herr⟩
  | none =>
    have hm3 : m3 = { m2 with e := { m2.e with pushErr := some errEmptyServerHalf } } := by
      rw [pushLKS_empty w ctx m2 lks h2 hl2 hs1] at e3
      simp only [Outcome.done.injEq, true_and] at e3
      exact e3.symm
    have hcalls : newCalls m m3 = l12 := by
      simp [newCalls, hm3, p12.calls]
    have herr3 : m3.e.pushErr = some errEmptyServerHalf := by rw [hm3]
    rw [herr3] at e
    refine ⟨errEmptyServerHalf, m3, e, ?_, ?_, ?_, ?_⟩
    · rw [hcalls]
      exact (b12 hp).1
    · rw [hcalls]
      exact hkinds
    · intro _
      rfl
    · rw [hcalls]
      rintro ⟨ev, hev, herr⟩
      exact absurd (p12.few.2.1 h2 ev hev) herr

/-! ## The key-security record -/

/-- C9: every record `pushLKS` posts carries the device identifier of the engine arguments,
the device type of the device identity, the server half that passed the non-emptiness check,
the generation number of the key-security context, the recovery ciphertext obtained by
encrypting the generated encryption key pair under that context, and the KID of that same
encryption key pair (the signing generator plays no part); and the record is posted whenever
no push error is pending, the context is set with a non-empty server half, the encryption
key is generated and the encryption succeeds. -/
theorem pushLKS_record (w : World) (ctx : Context) (m : Machine) :
    (∀ ev ∈ newCalls m (pushLKS w ctx m).machine, ∀ lctx id ty sh gen chr chrk,
      ev.call = Call.PostDeviceLKS lctx id ty sh gen chr chrk →
      ∃ lks eg key, m.e.args.Lks = some lks ∧ m.e.naclEncGen = some eg ∧
        eg.GetKeyPair = some key ∧ lctx = ctx.LoginContext ∧
        id = m.e.args.DeviceID.String ∧ ty = (device m.e).Type_ ∧
        sh = lks.GetServerHalf ∧ sh ≠ [] ∧ gen = lks.Generation ∧
        w.EncryptClientHalfRecovery m.calls lks key = (chr, none) ∧ chrk = key.GetKid) ∧
    (∀ lks eg key chr, m.e.pushErr = none → m.e.args.Lks = some lks →
      lks.GetServerHalf ≠ [] → m.e.naclEncGen = some eg → eg.GetKeyPair = some key →
      w.EncryptClientHalfRecovery m.calls lks key = (chr, none) →
      ∃ r rest, newCalls m (pushLKS w ctx m).machine =
        encryptEvent lks key none ::
        Event.mk (Call.PostDeviceLKS ctx.LoginContext m.e.args.DeviceID.String
          (device m.e).Type_ lks.GetServerHalf lks.Generation chr key.GetKid) r :: rest) := by
  constructor
  · intro ev hev lctx id ty sh gen chr chrk hc
    cases hp : m.e.pushErr with
    | some err =>
      rw [pushLKS_pending w ctx m err hp] at hev
      simp [newCalls, Outcome.machine] at hev
    | none =>
      cases hl : m.e.args.Lks with
      | none =>
        rw [pushLKS_nil w ctx m hp hl] at hev
        simp [newCalls, Outcome.machine] at hev
      | some lks =>
        by_cases hs : lks.serverHalf = []
        · rw [pushLKS_empty w ctx m lks hp hl hs] at hev
          simp [newCalls, Outcome.machine] at hev
        · cases hg : m.e.naclEncGen with
          | none =>
            simp [pushLKS, hp, hl, LKSec.GetServerHalf, hs, generateClientHalfRecovery, hg,
              Outcome.andThen, newCalls, Outcome.machine] at hev
          | some eg =>
            cases hk : eg.pair with
            | none =>
              simp [pushLKS, hp, hl, LKSec.GetServerHalf, hs, generateClientHalfRecovery, hg,
                NaclKeyGen.GetKeyPair, hk, Outcome.andThen, newCalls, Outcome.machine] at hev
            | some key =>
              rcases hE : w.EncryptClientHalfRecovery m.calls lks key with ⟨chr0, _ | errE⟩
              · have found : ev = Event.mk (postCall ctx m.e lks chr0 key.GetKid) ev.err := by
                  cases hP : w.respond (m.calls ++ [encryptEvent lks key none])
                      (postCall ctx m.e lks chr0 key.GetKid) with
                  | some errP =>
                    rw [pushLKS_post_failed w ctx m lks eg key chr0 errP hp hl hs hg hk hE hP]
                      at hev
                    simp only [newCalls, Outcome.machine, List.drop_left] at hev
                    simp only [List.mem_cons, List.mem_singleton, List.not_mem_nil,
                      or_false] at hev
                    rcases hev with h | h
                    · rw [h] at hc
                      simp [encryptEvent] at hc
                    · rw [h]
                  | none =>
                    rw [pushLKS_synced w ctx m lks eg key chr0 _ hp hl hs hg hk hE hP rfl]
                      at hev
                    simp only [newCalls, Outcome.machine, List.drop_left] at hev
                    simp only [List.mem_cons, List.mem_singleton, List.not_mem_nil,
                      or_false] at hev
                    rcases hev with h | h | h
                    · rw [h] at hc
                      simp [encryptEvent] at hc
                    · rw [h]
                    · rw [h] at hc
                      simp at hc
                rw [found] at hc
                simp only [postCall, Call.PostDeviceLKS.injEq] at hc
                obtain ⟨h1, h2, h3, h4, h5, h6, h7⟩ := hc
                refine ⟨lks, eg, key, rfl, rfl, hk, h1.symm, h2.symm, ?_, h4.symm, ?_, h5.symm,
                  ?_, h7.symm⟩
                · rw [← h3]
                  rfl
                · rw [← h4]
                  exact hs
                · rw [← h6]
                  exact hE
              · rw [pushLKS_encrypt_failed w ctx m lks eg key errE hp hl hs hg hk
                  (by rw [hE])] at hev
                simp only [newCalls, Outcome.machine, List.drop_left, List.mem_singleton] at hev
                rw [hev] at hc
                simp [encryptEvent] at hc
  · intro lks eg key chr hp hl hs hg hk hE
    have hs1 : lks.serverHalf ≠ [] := hs
    have hk1 : eg.pair = some key := hk
    cases hP : w.respond (m.calls ++ [encryptEvent lks key none])
        (postCall ctx m.e lks chr key.GetKid) with
    | some errP =>
      rw [pushLKS_post_failed w ctx m lks eg key chr errP hp hl hs1 hg hk1 hE hP]
      exact ⟨some errP, [], by simp [newCalls, Outcome.machine, postCall, device,
        LKSec.GetServerHalf, LKSec.Generation]⟩
    | none =>
      rw [pushLKS_synced w ctx m lks eg key chr _ hp hl hs1 hg hk1 hE hP rfl]
      exact ⟨none, _, by simp [newCalls, Outcome.machine, postCall, device,
        LKSec.GetServerHalf, LKSec.Generation]; rfl⟩

/-! ## The statements at the sample engine -/

theorem Run_short_circuit_witness :
    (freshMachine sampleArgs).e.runErr = none ∧
    ∃ ret m1, Run okWorld sampleCtx (freshMachine sampleArgs) = Outcome.done ret m1 ∧
      ret = m1.e.runErr ∧ (ret = none ↔ (newCalls (freshMachine sampleArgs) m1).length = 4 ∧
        ∀ ev ∈ newCalls (freshMachine sampleArgs) m1, ev.err = none) :=
  ⟨rfl, by
    obtain ⟨ret, m1, h1, h2, _, h4, _⟩ :=
      Run_short_circuit okWorld sampleCtx (freshMachine sampleArgs) rfl
    exact ⟨ret, m1, h1, h2, h4⟩⟩

theorem Push_eldest_scenario_witness :
    Run okWorld sampleCtx (freshMachine sampleArgs) = Outcome.done none ranMachine ∧
    ∃ m1, Push okWorld sampleCtx eldestArgs ranMachine = Outcome.done none m1 ∧
      (newCalls ranMachine m1).map (fun ev => ev.call.pushStep) = pushPipeline.map some :=
  ⟨rfl, by
    obtain ⟨sp, ep, a2, chr, m1, _, _, h3, h4, _⟩ :=
      Push_eldest_scenario okWorld sampleCtx sampleCtx eldestArgs (freshMachine sampleArgs)
        ranMachine sampleLks rfl rfl rfl (by decide) rfl (fun _ _ _ => rfl) (fun _ _ _ => rfl)
    exact ⟨m1, h3, by rw [h4]; rfl⟩⟩

theorem Push_sibling_witness :
    KeysGenerated ranMachine.e ∧ ranMachine.e.pushErr = none ∧
    ∃ m1 ev1 ev2 rest, Push okWorld sampleCtx siblingArgs ranMachine =
        Outcome.done m1.e.pushErr m1 ∧
      newCalls ranMachine m1 = ev1 :: ev2 :: rest :=
  ⟨by decide, rfl, by
    obtain ⟨m1, a1, a2, r, rest, sp, h1, h2, _⟩ :=
      Push_sibling okWorld sampleCtx siblingArgs ranMachine _ _ (by decide) rfl rfl rfl rfl rfl
        rfl
    exact ⟨m1, _, _, rest, h1, h2⟩⟩

theorem Push_signer_already_pushed_witness :
    KeysGenerated ranMachine.e ∧
    ∃ m1, Push okWorld sampleCtx skipArgs ranMachine = Outcome.done m1.e.pushErr m1 ∧
      ∀ ev ∈ newCalls ranMachine m1, ev.call.pushStep ≠ some PushStep.publishSigning :=
  ⟨by decide, by
    obtain ⟨m1, h1, h2, _⟩ :=
      Push_signer_already_pushed okWorld sampleCtx skipArgs ranMachine (by decide) rfl rfl
    exact ⟨m1, h1, h2⟩⟩

theorem Push_first_error_wins_witness :
    KeysGenerated ranMachine.e ∧
    ∃ m1, Push rejectEncWorld sampleCtx siblingArgs ranMachine =
        Outcome.done (some (Error.remote 1)) m1 ∧
      (newCalls ranMachine m1).map (fun ev => ev.call.pushStep) =
        [some PushStep.publishSigning, some PushStep.publishEncryption] :=
  ⟨by decide, by
    obtain ⟨ret, m1, h1, _, _, _, _, _, h7⟩ :=
      Push_first_error_wins rejectEncWorld sampleCtx siblingArgs ranMachine (by decide)
    obtain ⟨hret, hcalls⟩ := h7 _ _ (Error.remote 1) rfl rfl rfl rfl rfl rfl rfl
    subst hret
    exact ⟨m1, h1, by rw [hcalls]; rfl⟩⟩

theorem Push_empty_server_half_witness :
    KeysGenerated ranEmptyHalf.e ∧ ranEmptyHalf.e.pushErr = none ∧
    ranEmptyHalf.e.args.Lks = some emptyLks ∧ emptyLks.GetServerHalf.length = 0 ∧
    ∃ err m1, Push okWorld sampleCtx eldestArgs ranEmptyHalf = Outcome.done (some err) m1 ∧
      newCalls ranEmptyHalf m1 ≠ [] :=
  ⟨by decide, rfl, rfl, rfl, by
    obtain ⟨err, m1, h1, h2, _⟩ :=
      Push_empty_server_half okWorld sampleCtx eldestArgs ranEmptyHalf emptyLks (by decide)
        rfl rfl rfl
    exact ⟨err, m1, h1, h2⟩⟩

end Engine
